import Mathlib

/-!
Verification of the match-3 board engine in `src/index.tsx`.

The engine's core is shallowly embedded here:
* `Gem`, `getGemAt` — the token data model and positional lookup;
* `findMatches` — the match detector (horizontal and vertical 3-windows
  with rightward/downward extension);
* `removeMatched`, `gravityRefill`, `cascadeStep`, `processBoard` — the
  cascade resolver (removal, per-column compaction, refill, recursion with
  an escalating multiplier), with the id counter and the stream of random
  kind draws made explicit;
* `handleSwap`, `handleClick` — swap commit/revert and the selection state
  machine;
* `initGame` — row-major initial fill with the local anti-match redraw loop.

Token kinds are natural numbers (the source compares emoji strings only for
equality); coordinates are integers because refilled gems are created at
negative rows; `Math.random` draws are an explicit stream `Nat → Nat`; the
global `gemIdCounter` is explicit state.  The purely cosmetic fields
`isMatch` / `isNew` and all rendering code are omitted.  `async`/`await`
delays have no semantic content and are dropped.
-/

/-- Number of columns, `COLS` in the source. -/
def COLS : Nat := 8

/-- Number of rows, `ROWS` in the source. -/
def ROWS : Nat := 8

/-- Number of token kinds, `TYPES.length` in the source. -/
def NTYPES : Nat := 6

/-- A token: `Gem` in the source, minus the cosmetic `isMatch`/`isNew` flags.
The kind is the index of the emoji in `TYPES`. -/
structure Gem where
  id : Nat
  x : Int
  y : Int
  kind : Nat
  deriving DecidableEq, Repr

/-- `getGemAt` from the source: first gem of the list at position `(x, y)`. -/
def getGemAt (x y : Int) (l : List Gem) : Option Gem :=
  l.find? fun g => g.x == x && g.y == y

/-- The `while (k < COLS)` extension loop of the horizontal scan in
`findMatches`: starting at column `k`, keep adding ids while the next
column's gem shares kind `t`.  The loop runs at most `COLS - k` times, made
explicit as a structural counter (the guard `k < COLS` keeps the semantics
exactly the source's). -/
def extendRight (l : List Gem) (t : Nat) (y : Int) : Nat → Nat → Finset Nat
  | _, 0 => ∅
  | k, rem + 1 =>
    if k < COLS then
      match getGemAt k y l with
      | some nxt => if nxt.kind = t then insert nxt.id (extendRight l t y (k + 1) rem) else ∅
      | none => ∅
    else ∅

/-- The `while (k < ROWS)` extension loop of the vertical scan in
`findMatches`. -/
def extendDown (l : List Gem) (t : Nat) (x : Int) : Nat → Nat → Finset Nat
  | _, 0 => ∅
  | k, rem + 1 =>
    if k < ROWS then
      match getGemAt x k l with
      | some nxt => if nxt.kind = t then insert nxt.id (extendDown l t x (k + 1) rem) else ∅
      | none => ∅
    else ∅

/-- One horizontal 3-window of `findMatches` at columns `x, x+1, x+2` of row
`y`: if all three cells are occupied by gems of one kind, their ids plus the
rightward extension; otherwise nothing. -/
def hWindow (l : List Gem) (x y : Nat) : Finset Nat :=
  match getGemAt x y l, getGemAt (x + 1 : Nat) y l, getGemAt (x + 2 : Nat) y l with
  | some g1, some g2, some g3 =>
    if g1.kind = g2.kind ∧ g1.kind = g3.kind then
      insert g1.id (insert g2.id (insert g3.id (extendRight l g1.kind y (x + 3) (COLS - (x + 3)))))
    else ∅
  | _, _, _ => ∅

/-- One vertical 3-window of `findMatches` at rows `y, y+1, y+2` of column
`x`. -/
def vWindow (l : List Gem) (x y : Nat) : Finset Nat :=
  match getGemAt x y l, getGemAt x (y + 1 : Nat) l, getGemAt x (y + 2 : Nat) l with
  | some g1, some g2, some g3 =>
    if g1.kind = g2.kind ∧ g1.kind = g3.kind then
      insert g1.id (insert g2.id (insert g3.id (extendDown l g1.kind x (y + 3) (ROWS - (y + 3)))))
    else ∅
  | _, _, _ => ∅

/-- The horizontal pass of `findMatches`: union of all horizontal windows. -/
def horizMatches (l : List Gem) : Finset Nat :=
  (Finset.range ROWS).biUnion fun y => (Finset.range (COLS - 2)).biUnion fun x => hWindow l x y

/-- The vertical pass of `findMatches`: union of all vertical windows. -/
def vertMatches (l : List Gem) : Finset Nat :=
  (Finset.range COLS).biUnion fun x => (Finset.range (ROWS - 2)).biUnion fun y => vWindow l x y

/-- `findMatches` from the source: the set of ids collected by the mutable
`Set<number>` after both scans.  Union order is irrelevant for a set. -/
def findMatches (l : List Gem) : Finset Nat :=
  horizMatches l ∪ vertMatches l

/-- Step 3 of `processBoard`: `currentGems.filter(g => !matchedIds.has(g.id))`. -/
def removeMatched (l : List Gem) (m : Finset Nat) : List Gem :=
  l.filter fun g => decide (g.id ∉ m)

/-- `columns[x].sort((a, b) => a.y - b.y)` from `processBoard`; JavaScript
`Array.prototype.sort` is stable, and stable sorting by ascending `y` is
insertion sort with a non-strict comparator. -/
def sortByY (l : List Gem) : List Gem :=
  l.insertionSort fun a b => a.y ≤ b.y

/-- The board-plus-counters state threaded through the cascade: the live gem
list, the global `gemIdCounter`, and the index of the next `Math.random`
draw. -/
structure BoardState where
  gems : List Gem
  nextId : Nat
  drawIdx : Nat
  deriving DecidableEq, Repr

/-- The column rebuild loop of `processBoard` (step 4): for each column `x`
in order, push `missing` freshly created gems at negative rows
`i - missing`, then the surviving gems of the column sorted by row,
re-assigned to row `index + missing`.  The id counter and the draw index
advance by `missing` per column. -/
def goCols (draws : Nat → Nat) (gems : List Gem) :
    List Nat → Nat → Nat → List Gem × Nat × Nat
  | [], nid, did => ([], nid, did)
  | x :: xs, nid, did =>
    let col := sortByY (gems.filter fun g => g.x == (x : Int))
    let missing := ROWS - col.length
    let news := (List.range missing).map fun i =>
      { id := nid + i, x := (x : Int), y := (i : Int) - (missing : Int),
        kind := draws (did + i) }
    let moved := col.enum.map fun p => { p.2 with y := ((p.1 + missing : Nat) : Int) }
    let rest := goCols draws gems xs (nid + missing) (did + missing)
    (news ++ moved ++ rest.1, rest.2.1, rest.2.2)

/-- Steps 4–5 of `processBoard`: gravity compaction and refill over all
columns, producing the `newGems` list in the order the source pushes it. -/
def gravityRefill (draws : Nat → Nat) (st : BoardState) : BoardState :=
  let r := goCols draws st.gems (List.range COLS) st.nextId st.drawIdx
  { gems := r.1, nextId := r.2.1, drawIdx := r.2.2 }

/-- One full cascade round on a state whose match set is `m`: removal then
gravity and refill. -/
def cascadeRound (draws : Nat → Nat) (m : Finset Nat) (st : BoardState) : BoardState :=
  gravityRefill draws { st with gems := removeMatched st.gems m }

/-- One cascade round including its own match detection. -/
def cascadeStep (draws : Nat → Nat) (st : BoardState) : BoardState :=
  cascadeRound draws (findMatches st.gems) st

/-- `processBoard` from the source, with explicit fuel standing for the
recursion depth: returns `some (finalState, accumulatedScoreDelta)` if the
cascade stabilises within `fuel` rounds (a round whose match set is empty),
`none` otherwise.  `mult` is the `multiplier` parameter (1 at the top call)
and `acc` the score delta accumulated so far. -/
def processBoard (draws : Nat → Nat) :
    Nat → BoardState → Nat → Nat → Option (BoardState × Nat)
  | 0, _, _, _ => none
  | fuel + 1, st, mult, acc =>
    let m := findMatches st.gems
    if m.card = 0 then some (st, acc)
    else processBoard draws fuel (cascadeRound draws m st) (mult + 1) (acc + m.card * 10 * mult)

/-- The per-round matched-id counts `m_i` of a cascade, in round order,
computed by the same recursion as `processBoard`. -/
def roundCounts (draws : Nat → Nat) : Nat → BoardState → List Nat
  | 0, _ => []
  | fuel + 1, st =>
    let m := findMatches st.gems
    if m.card = 0 then []
    else m.card :: roundCounts draws fuel (cascadeRound draws m st)

/-- Termination of the cascade resolver from a given state under a given
draw stream: some finite recursion depth makes `processBoard` (multiplier 1,
empty accumulator) return. -/
def resolverTerminates (draws : Nat → Nat) (st : BoardState) : Prop :=
  ∃ fuel r, processBoard draws fuel st 1 0 = some r

/-- The session state owned by the `App` component: live gems, score, the
selection, the `isProcessing` and `isPaused` flags, plus the explicit id
counter and draw index. -/
structure Session where
  gems : List Gem
  score : Nat
  selectedId : Option Nat
  isProcessing : Bool
  isPaused : Bool
  nextId : Nat
  drawIdx : Nat
  deriving DecidableEq, Repr

/-- The tentative layout built by `handleSwap` step 1: the two gems'
coordinates exchanged, everything else untouched. -/
def swapCoords (gems : List Gem) (id1 id2 : Nat) (g1 g2 : Gem) : List Gem :=
  gems.map fun g =>
    if g.id == id1 then { g with x := g2.x, y := g2.y }
    else if g.id == id2 then { g with x := g1.x, y := g1.y }
    else g

/-- `handleSwap` from the source: look the two gems up (the source uses a
non-null assertion, embedded as `none` on a missing id), swap coordinates,
detect matches on the tentative layout; on a match run `processBoard` with
multiplier 1, otherwise revert to the pre-swap gem list.  `none` also stands
for a cascade that does not stabilise within `fuel` rounds. -/
def handleSwap (draws : Nat → Nat) (fuel : Nat) (s : Session) (id1 id2 : Nat) :
    Option Session :=
  match s.gems.find? (fun g => g.id == id1), s.gems.find? (fun g => g.id == id2) with
  | some g1, some g2 =>
    let nextGems := swapCoords s.gems id1 id2 g1 g2
    let ms := findMatches nextGems
    if 0 < ms.card then
      (processBoard draws fuel { gems := nextGems, nextId := s.nextId, drawIdx := s.drawIdx } 1 0).map
        fun r =>
          { gems := r.1.gems, score := s.score + r.2, selectedId := none,
            isProcessing := false, isPaused := s.isPaused,
            nextId := r.1.nextId, drawIdx := r.1.drawIdx }
    else
      some { s with gems := s.gems, selectedId := none, isProcessing := false }
  | _, _ => none

/-- `handleClick` from the source: the selection state machine.  The second
component is the swap request handed to `handleSwap` when one is initiated;
the first component is the session as `handleClick` itself leaves it. -/
def handleClick (s : Session) (id : Nat) : Session × Option (Nat × Nat) :=
  if s.isProcessing || s.isPaused then (s, none)
  else
    match s.selectedId with
    | none => ({ s with selectedId := some id }, none)
    | some sel =>
      if sel == id then ({ s with selectedId := none }, none)
      else
        match s.gems.find? (fun g => g.id == sel), s.gems.find? (fun g => g.id == id) with
        | some g1, some g2 =>
          let dx := (g1.x - g2.x).natAbs
          let dy := (g1.y - g2.y).natAbs
          if dx + dy = 1 then (s, some (sel, id))
          else ({ s with selectedId := some id }, none)
        | _, _ => (s, none)

/-- The redraw condition of `initGame`'s `while` loop for the cell at
`(x, y)`, with `acc` the gems placed so far in reverse placement order:
`acc[0]?`/`acc[1]?` are the two cells to the left and
`acc[COLS-1]?`/`acc[2*COLS-1]?` the two cells directly above (the source
indexes the same cells from the end of its array). -/
def badKind (acc : List Gem) (x y t : Nat) : Bool :=
  (decide (2 ≤ x) &&
    match acc[0]?, acc[1]? with
    | some a, some b => a.kind == t && b.kind == t
    | _, _ => false) ||
  (decide (2 ≤ y) &&
    match acc[COLS - 1]?, acc[2 * COLS - 1]? with
    | some a, some b => a.kind == t && b.kind == t
    | _, _ => false)

/-- The draw-and-redraw loop of `initGame` for one cell: draw kinds from the
stream starting at index `di` until one fails `bad`, within `fuel` attempts.
Returns the accepted kind and the next draw index. -/
def pickKind (draws : Nat → Nat) (bad : Nat → Bool) : Nat → Nat → Option (Nat × Nat)
  | 0, _ => none
  | fuel + 1, di =>
    let t := draws di
    if bad t then pickKind draws bad fuel (di + 1) else some (t, di + 1)

/-- The cell loop of `initGame`: place cells `n, n+1, ...` (row-major,
`rem` cells remaining), consing each new gem onto `acc`; ids continue from
`c0 + n` as the global counter does. -/
def initGameAux (draws : Nat → Nat) (pfuel c0 : Nat) :
    Nat → Nat → List Gem → Nat → Option (List Gem)
  | 0, _, acc, _ => some acc.reverse
  | rem + 1, n, acc, di =>
    match pickKind draws (badKind acc (n % COLS) (n / COLS)) pfuel di with
    | some (t, di2) =>
      initGameAux draws pfuel c0 rem (n + 1)
        ({ id := c0 + n, x := ((n % COLS : Nat) : Int), y := ((n / COLS : Nat) : Int),
           kind := t } :: acc) di2
    | none => none

/-- `initGame` from the source: the full row-major initial fill with the
local anti-match redraw; `c0` is the value of the global id counter. -/
def initGame (draws : Nat → Nat) (pfuel c0 : Nat) : Option (List Gem) :=
  initGameAux draws pfuel c0 (ROWS * COLS) 0 [] 0

/-- The gem a full canonical layout holds at cell `(x, y)`. -/
def gemOf (kinds ids : Nat → Nat → Nat) (x y : Nat) : Gem :=
  { id := ids x y, x := (x : Int), y := (y : Int), kind := kinds x y }

/-- A full board in row-major order: one gem per in-bounds cell, with kinds
and ids given by the two functions.  This is the shape of every layout the
engine hands to the detector in a stable state. -/
def mkBoard (kinds ids : Nat → Nat → Nat) : List Gem :=
  (List.range ROWS).flatMap fun y => (List.range COLS).map fun x => gemOf kinds ids x y

/-- A kind pattern with no two horizontally adjacent equal cells and no two
vertically adjacent equal cells; the board it fills is match-free. -/
def basek (x y : Nat) : Nat := (x % 3) + 3 * (y % 2)

/-- The match-free pattern with one horizontal run of exactly three kind-0
cells at `(0,0), (1,0), (2,0)` (cell `(3,0)` is changed to kind 1 so the run
does not extend). -/
def kinds1 (x y : Nat) : Nat :=
  if x = 1 && y = 0 then 0
  else if x = 2 && y = 0 then 0
  else if x = 3 && y = 0 then 1
  else basek x y

/-- Row-major ids for concrete boards. -/
def ids0 (x y : Nat) : Nat := y * COLS + x

/-- A concrete full board whose only run is the horizontal kind-0 triple in
row 0, ids 0, 1, 2. -/
def B1 : List Gem := mkBoard kinds1 ids0

/-- A concrete full board with no run at all. -/
def Bfree : List Gem := mkBoard basek ids0

/-- The board state for `B1` as `processBoard` would receive it (64 gems
already created, draws not yet consumed). -/
def st1 : BoardState := { gems := B1, nextId := 64, drawIdx := 0 }

/-- A draw stream that always yields kind 5. -/
def draws5 : Nat → Nat := fun _ => 5

/-- A draw stream that always yields kind 0. -/
def draws0 : Nat → Nat := fun _ => 0

/-- `B1` with the gem at `(0, 0)` missing: a non-full layout whose only
potential run lost one cell to the gap. -/
def gapBoard1 : List Gem := B1.filter fun g => !(g.x == 0 && g.y == 0)

/-- `B1` with the gem at `(7, 7)` missing: a non-full layout whose run at
row 0 is intact. -/
def gapBoard2 : List Gem := B1.filter fun g => !(g.x == 7 && g.y == 7)

/-- A session holding the match-free board, nothing selected. -/
def sess0 : Session :=
  { gems := Bfree, score := 0, selectedId := none, isProcessing := false,
    isPaused := false, nextId := 64, drawIdx := 0 }

/-- A draw stream under which every `initGame` cell accepts its first draw. -/
def drawsInit : Nat → Nat := fun n => basek (n % COLS) (n / COLS)

/-- A mid-cascade layout that `cascadeStep` maps to an id-shifted copy of
itself under the all-zero draw stream: column 0 holds three fresh kind-0
gems at rows `-3..-1`, a kind-0 vertical triple at rows 3..5 and two
blockers at rows 6, 7; columns 1..7 are full and match-free.  This is, up
to token ids, the shape one round after a full board loses a vertical
triple from the middle of column 0 while refill draws kind 0 and columns
1..7 stay untouched. -/
def tmplGems : List Gem :=
  ({ id := 67, x := 0, y := -3, kind := 0 } : Gem) ::
  { id := 68, x := 0, y := -2, kind := 0 } ::
  { id := 69, x := 0, y := -1, kind := 0 } ::
  { id := 64, x := 0, y := 3, kind := 0 } ::
  { id := 65, x := 0, y := 4, kind := 0 } ::
  { id := 66, x := 0, y := 5, kind := 0 } ::
  { id := 56, x := 0, y := 6, kind := 1 } ::
  { id := 57, x := 0, y := 7, kind := 2 } ::
  ((List.range 7).flatMap fun i => (List.range 8).map fun y =>
    { id := i * 8 + y, x := ((i + 1 : Nat) : Int), y := (y : Int), kind := basek (i + 1) y })

/-- The board state holding `tmplGems` with the id counter at 70. -/
def tmplState : BoardState := { gems := tmplGems, nextId := 70, drawIdx := 0 }

/-- The id relabeling that shifts the six live ids 64..69 of `tmplGems` (and
all ids minted after them) so that the counter sits at `c` instead of 70;
ids below 64 (the stable columns) are fixed. -/
def fc (c i : Nat) : Nat := if i < 64 then i else (i + c) - 70

/-- Replace a gem's id, keeping position and kind. -/
def relabelGem (f : Nat → Nat) (g : Gem) : Gem := { g with id := f g.id }

/-- The gems of column `x` in the source's push order. -/
def colOf (gems : List Gem) (x : Nat) : List Gem :=
  gems.filter fun g => g.x == (x : Int)

/-- The post-gravity position of column `x`: the sorted survivors re-rowed to
the bottom of the column, exactly the `columns[x].forEach` push of
`processBoard`. -/
def movedOf (gems : List Gem) (x : Nat) : List Gem :=
  (sortByY (colOf gems x)).enum.map fun p =>
    { p.2 with y := ((p.1 + (ROWS - (sortByY (colOf gems x)).length) : Nat) : Int) }

/-- Total cascade score starting from a given multiplier: round `i` of the
list contributes its count times 10 times the current multiplier. -/
def sumScore : Nat → List Nat → Nat
  | _, [] => 0
  | mult, m :: ms => m * 10 * mult + sumScore (mult + 1) ms

/-- A full canonical layout: the detector's lookup at every in-bounds cell
returns the gem described by the kind and id functions. -/
def fullCanon (l : List Gem) (kinds ids : Nat → Nat → Nat) : Prop :=
  ∀ x y, x < COLS → y < ROWS → getGemAt x y l = some (gemOf kinds ids x y)

/-- Membership in the horizontal pass, phrased on the kind and id functions:
some fired 3-window `x..x+2` of row `y` reaches the id at column `c` through
a same-kind stretch. -/
def horizSpec (kinds ids : Nat → Nat → Nat) (m : Nat) : Prop :=
  ∃ y x c, y < ROWS ∧ x + 2 < COLS ∧
    kinds x y = kinds (x + 1) y ∧ kinds x y = kinds (x + 2) y ∧
    x ≤ c ∧ c < COLS ∧ (∀ u, x ≤ u → u ≤ c → kinds u y = kinds x y) ∧ m = ids c y

/-- Membership in the vertical pass, phrased on the kind and id functions. -/
def vertSpec (kinds ids : Nat → Nat → Nat) (m : Nat) : Prop :=
  ∃ x y c, x < COLS ∧ y + 2 < ROWS ∧
    kinds x y = kinds x (y + 1) ∧ kinds x y = kinds x (y + 2) ∧
    y ≤ c ∧ c < ROWS ∧ (∀ u, y ≤ u → u ≤ c → kinds x u = kinds x y) ∧ m = ids x c

/-- The guarantee `initGame`'s redraw loop establishes cell by cell: no cell
completes a run of three with the two cells to its left, nor with the two
cells directly above. -/
def localNoTriple (kinds : Nat → Nat → Nat) : Prop :=
  ∀ x y, x < COLS → y < ROWS →
    ¬(2 ≤ x ∧ kinds (x - 1) y = kinds x y ∧ kinds (x - 2) y = kinds x y) ∧
    ¬(2 ≤ y ∧ kinds x (y - 1) = kinds x y ∧ kinds x (y - 2) = kinds x y)

/-- The gem `initGame` places at cell index `n` (row-major): the id continues
the counter, the position is `(n % COLS, n / COLS)`, the kind comes from the
accepted draw sequence `kseq`. -/
def cellGem (c0 : Nat) (kseq : Nat → Nat) (n : Nat) : Gem :=
  { id := c0 + n, x := ((n % COLS : Nat) : Int), y := ((n / COLS : Nat) : Int),
    kind := kseq n }

/-- The per-cell guarantee `initGame`'s redraw loop establishes, in terms of
the kind sequence by cell index: the accepted kind does not equal both of the
two cells to its left, nor both of the two cells directly above. -/
def accepted (kseq : Nat → Nat) (i : Nat) : Prop :=
  ¬(2 ≤ i % COLS ∧ kseq (i - 1) = kseq i ∧ kseq (i - 2) = kseq i) ∧
  ¬(2 ≤ i / COLS ∧ kseq (i - COLS) = kseq i ∧ kseq (i - 2 * COLS) = kseq i)

/-- The rows of column `x` whose token survives removal of the match set
`M`, top to bottom, for a full canonical layout. -/
def survRows (ids : Nat → Nat → Nat) (M : Finset Nat) (x : Nat) : List Nat :=
  (List.range ROWS).filter fun y => decide (ids x y ∉ M)

/-- The `i`-th surviving token of column `x` as gravity re-rows it: original
id and kind, re-assigned to row `ROWS - k + i` where `k` counts the column's
survivors. -/
def survGem (kinds ids : Nat → Nat → Nat) (M : Finset Nat) (x i : Nat) : Gem :=
  { id := ids x ((survRows ids M x).getD i 0),
    x := (x : Int),
    y := ((ROWS - (survRows ids M x).length + i : Nat) : Int),
    kind := kinds x ((survRows ids M x).getD i 0) }

lemma getGemAt_some {x y : Int} {l : List Gem} {g : Gem} (h : getGemAt x y l = some g) :
    g.x = x ∧ g.y = y ∧ g ∈ l := by
  unfold getGemAt at h
  have hp := List.find?_some h
  have hm := List.mem_of_find?_eq_some h
  simp only [Bool.and_eq_true, beq_iff_eq] at hp
  exact ⟨hp.1, hp.2, hm⟩

lemma mem_horizMatches_iff {l : List Gem} {m : Nat} :
    m ∈ horizMatches l ↔ ∃ y, y < ROWS ∧ ∃ x, x < COLS - 2 ∧ m ∈ hWindow l x y := by
  simp [horizMatches, Finset.mem_biUnion, Finset.mem_range]

lemma mem_vertMatches_iff {l : List Gem} {m : Nat} :
    m ∈ vertMatches l ↔ ∃ x, x < COLS ∧ ∃ y, y < ROWS - 2 ∧ m ∈ vWindow l x y := by
  simp [vertMatches, Finset.mem_biUnion, Finset.mem_range]

lemma mem_findMatches_iff {l : List Gem} {m : Nat} :
    m ∈ findMatches l ↔ m ∈ horizMatches l ∨ m ∈ vertMatches l :=
  Finset.mem_union


lemma mem_extendRight_exists {l : List Gem} {t : Nat} {y : Int} {m : Nat} :
    ∀ rem k, m ∈ extendRight l t y k rem → ∃ g ∈ l, g.id = m := by
  intro rem
  induction rem with
  | zero =>
    intro k hm
    exact absurd hm (Finset.not_mem_empty m)
  | succ rem ih =>
    intro k hm
    rw [extendRight] at hm
    by_cases h : k < COLS
    · rw [if_pos h] at hm
      split at hm
      · next nxt hg =>
          split at hm
          · rcases Finset.mem_insert.mp hm with h1 | h2
            · exact ⟨nxt, (getGemAt_some hg).2.2, h1.symm⟩
            · exact ih (k + 1) h2
          · exact absurd hm (Finset.not_mem_empty m)
      · exact absurd hm (Finset.not_mem_empty m)
    · rw [if_neg h] at hm
      exact absurd hm (Finset.not_mem_empty m)

lemma mem_extendDown_exists {l : List Gem} {t : Nat} {x : Int} {m : Nat} :
    ∀ rem k, m ∈ extendDown l t x k rem → ∃ g ∈ l, g.id = m := by
  intro rem
  induction rem with
  | zero =>
    intro k hm
    exact absurd hm (Finset.not_mem_empty m)
  | succ rem ih =>
    intro k hm
    rw [extendDown] at hm
    by_cases h : k < ROWS
    · rw [if_pos h] at hm
      split at hm
      · next nxt hg =>
          split at hm
          · rcases Finset.mem_insert.mp hm with h1 | h2
            · exact ⟨nxt, (getGemAt_some hg).2.2, h1.symm⟩
            · exact ih (k + 1) h2
          · exact absurd hm (Finset.not_mem_empty m)
      · exact absurd hm (Finset.not_mem_empty m)
    · rw [if_neg h] at hm
      exact absurd hm (Finset.not_mem_empty m)

lemma hWindow_cases {l : List Gem} {x y m : Nat} (hm : m ∈ hWindow l x y) :
    ∃ g1 g2 g3,
      getGemAt (x : Int) (y : Int) l = some g1 ∧
      getGemAt ((x + 1 : Nat) : Int) (y : Int) l = some g2 ∧
      getGemAt ((x + 2 : Nat) : Int) (y : Int) l = some g3 ∧
      g1.kind = g2.kind ∧ g1.kind = g3.kind ∧
      (m = g1.id ∨ m = g2.id ∨ m = g3.id ∨ m ∈ extendRight l g1.kind y (x + 3) (COLS - (x + 3))) := by
  unfold hWindow at hm
  split at hm
  · next g1 g2 g3 h1 h2 h3 =>
      split at hm
      · next hk =>
          simp only [Finset.mem_insert] at hm
          exact ⟨g1, g2, g3, h1, h2, h3, hk.1, hk.2, by tauto⟩
      · exact absurd hm (Finset.not_mem_empty m)
  · exact absurd hm (Finset.not_mem_empty m)

lemma vWindow_cases {l : List Gem} {x y m : Nat} (hm : m ∈ vWindow l x y) :
    ∃ g1 g2 g3,
      getGemAt (x : Int) (y : Int) l = some g1 ∧
      getGemAt (x : Int) ((y + 1 : Nat) : Int) l = some g2 ∧
      getGemAt (x : Int) ((y + 2 : Nat) : Int) l = some g3 ∧
      g1.kind = g2.kind ∧ g1.kind = g3.kind ∧
      (m = g1.id ∨ m = g2.id ∨ m = g3.id ∨ m ∈ extendDown l g1.kind x (y + 3) (ROWS - (y + 3))) := by
  unfold vWindow at hm
  split at hm
  · next g1 g2 g3 h1 h2 h3 =>
      split at hm
      · next hk =>
          simp only [Finset.mem_insert] at hm
          exact ⟨g1, g2, g3, h1, h2, h3, hk.1, hk.2, by tauto⟩
      · exact absurd hm (Finset.not_mem_empty m)
  · exact absurd hm (Finset.not_mem_empty m)

lemma hWindow_of_fired {l : List Gem} {x y : Nat} {g1 g2 g3 : Gem}
    (h1 : getGemAt (x : Int) (y : Int) l = some g1)
    (h2 : getGemAt ((x + 1 : Nat) : Int) (y : Int) l = some g2)
    (h3 : getGemAt ((x + 2 : Nat) : Int) (y : Int) l = some g3)
    (k2 : g1.kind = g2.kind) (k3 : g1.kind = g3.kind) :
    g1.id ∈ hWindow l x y ∧ g2.id ∈ hWindow l x y ∧ g3.id ∈ hWindow l x y := by
  unfold hWindow
  rw [h1, h2, h3]
  simp only [← k2, ← k3, and_self, if_true, Finset.mem_insert]
  tauto

lemma vWindow_of_fired {l : List Gem} {x y : Nat} {g1 g2 g3 : Gem}
    (h1 : getGemAt (x : Int) (y : Int) l = some g1)
    (h2 : getGemAt (x : Int) ((y + 1 : Nat) : Int) l = some g2)
    (h3 : getGemAt (x : Int) ((y + 2 : Nat) : Int) l = some g3)
    (k2 : g1.kind = g2.kind) (k3 : g1.kind = g3.kind) :
    g1.id ∈ vWindow l x y ∧ g2.id ∈ vWindow l x y ∧ g3.id ∈ vWindow l x y := by
  unfold vWindow
  rw [h1, h2, h3]
  simp only [← k2, ← k3, and_self, if_true, Finset.mem_insert]
  tauto

lemma hWindow_subset {l : List Gem} {x y : Nat} (hx : x < COLS - 2) (hy : y < ROWS) :
    hWindow l x y ⊆ findMatches l := by
  intro m hm
  exact Finset.mem_union_left _ (mem_horizMatches_iff.mpr ⟨y, hy, x, hx, hm⟩)

lemma vWindow_subset {l : List Gem} {x y : Nat} (hx : x < COLS) (hy : y < ROWS - 2) :
    vWindow l x y ⊆ findMatches l := by
  intro m hm
  exact Finset.mem_union_right _ (mem_vertMatches_iff.mpr ⟨x, hx, y, hy, hm⟩)

/-- C6: if an adjacent swap of tokens `a` and `b` produces a tentative layout
in which the match detector finds no matches, `handleSwap` reverts: the
resulting session holds the pre-swap gem list unchanged (the exact prior
id-to-position mapping) and the score is unchanged; only the selection and
processing flags are cleared. -/
theorem c6_no_match_revert (draws : Nat → Nat) (fuel : Nat) (s : Session)
    (a b : Nat) (g1 g2 : Gem)
    (h1 : s.gems.find? (fun g => g.id == a) = some g1)
    (h2 : s.gems.find? (fun g => g.id == b) = some g2)
    (hnm : findMatches (swapCoords s.gems a b g1 g2) = ∅) :
    handleSwap draws fuel s a b =
      some { s with selectedId := none, isProcessing := false } := by
  unfold handleSwap
  rw [h1, h2]
  simp only [hnm, Finset.card_empty, lt_self_iff_false, if_false]

/-- Witness for C6 at a concrete input: on the match-free board, swapping the
adjacent gems with ids 0 and 1 produces no match, and `handleSwap` returns
the original gem list with the original score. -/
theorem c6_no_match_revert_witness :
    handleSwap draws5 3 sess0 0 1 =
      some { sess0 with selectedId := none, isProcessing := false } :=
  c6_no_match_revert draws5 3 sess0 0 1
    { id := 0, x := 0, y := 0, kind := 0 } { id := 1, x := 1, y := 0, kind := 1 }
    (by decide) (by decide) (by decide)

/-- C7: with token `a` selected and a different token `b` clicked (session
not processing, not paused, both ids present), `handleClick` initiates the
swap `(a, b)` if and only if the Manhattan distance between the two gems is
exactly 1; otherwise it replaces the selection with `b` and changes nothing
else (gems and score untouched, no swap). -/
theorem c7_swap_iff_adjacent (s : Session) (a b : Nat) (g1 g2 : Gem)
    (hp : s.isProcessing = false) (hq : s.isPaused = false)
    (hsel : s.selectedId = some a) (hab : a ≠ b)
    (h1 : s.gems.find? (fun g => g.id == a) = some g1)
    (h2 : s.gems.find? (fun g => g.id == b) = some g2) :
    (handleClick s b = (s, some (a, b)) ↔
      (g1.x - g2.x).natAbs + (g1.y - g2.y).natAbs = 1) ∧
    ((g1.x - g2.x).natAbs + (g1.y - g2.y).natAbs ≠ 1 →
      handleClick s b = ({ s with selectedId := some b }, none)) := by
  have hcore : handleClick s b =
      if (g1.x - g2.x).natAbs + (g1.y - g2.y).natAbs = 1 then (s, some (a, b))
      else ({ s with selectedId := some b }, none) := by
    unfold handleClick
    rw [hp, hq, hsel]
    simp only [Bool.or_self, Bool.false_eq_true, if_false]
    rw [h1, h2]
    simp [hab]
  constructor
  · rw [hcore]
    by_cases hd : (g1.x - g2.x).natAbs + (g1.y - g2.y).natAbs = 1
    · simp [hd]
    · simp [hd]
  · intro hd
    rw [hcore, if_neg hd]

/-- Witness for C7 at a concrete input: on the match-free board with id 0
selected, clicking the horizontally adjacent id 1 initiates the swap. -/
theorem c7_swap_iff_adjacent_witness :
    handleClick { sess0 with selectedId := some 0 } 1 =
      ({ sess0 with selectedId := some 0 }, some (0, 1)) :=
  (c7_swap_iff_adjacent { sess0 with selectedId := some 0 } 0 1
    { id := 0, x := 0, y := 0, kind := 0 } { id := 1, x := 1, y := 0, kind := 1 }
    rfl rfl rfl (by decide) (by decide) (by decide)).1.mpr (by decide)

/-- C8 counterexample: the match detector does not fail fast on a non-full
layout.  With the gem at `(0,0)` removed from `B1` it silently returns the
empty set (the gapped window is skipped as if it were a non-match), and with
the unrelated gem at `(7,7)` removed it silently returns the intact run —
in both cases a normal result, with no assertion or error outcome. -/
theorem c8_gap_no_failure :
    findMatches gapBoard1 = ∅ ∧ findMatches gapBoard2 = {0, 1, 2} := by
  constructor
  · decide
  · decide

/-- C8 amended: the detector is total on gapped layouts and merely sound —
every id it returns belongs to a gem present in the layout; a window with a
missing cell contributes nothing rather than raising an error. -/
theorem c8_detector_total_on_gaps (l : List Gem) (m : Nat)
    (hm : m ∈ findMatches l) : ∃ g ∈ l, g.id = m := by
  rcases mem_findMatches_iff.mp hm with h | h
  · rcases mem_horizMatches_iff.mp h with ⟨y, _, x, _, hw⟩
    rcases hWindow_cases hw with ⟨g1, g2, g3, hg1, hg2, hg3, _, _, hc⟩
    rcases hc with rfl | rfl | rfl | he
    · exact ⟨g1, (getGemAt_some hg1).2.2, rfl⟩
    · exact ⟨g2, (getGemAt_some hg2).2.2, rfl⟩
    · exact ⟨g3, (getGemAt_some hg3).2.2, rfl⟩
    · exact mem_extendRight_exists (COLS - (x + 3)) (x + 3) he
  · rcases mem_vertMatches_iff.mp h with ⟨x, _, y, _, hw⟩
    rcases vWindow_cases hw with ⟨g1, g2, g3, hg1, hg2, hg3, _, _, hc⟩
    rcases hc with rfl | rfl | rfl | he
    · exact ⟨g1, (getGemAt_some hg1).2.2, rfl⟩
    · exact ⟨g2, (getGemAt_some hg2).2.2, rfl⟩
    · exact ⟨g3, (getGemAt_some hg3).2.2, rfl⟩
    · exact mem_extendDown_exists (ROWS - (y + 3)) (y + 3) he

/-- Witness for the amended C8 statement at a concrete input: id 0 returned
on `B1` belongs to a gem of `B1`. -/
theorem c8_detector_total_on_gaps_witness : ∃ g ∈ B1, g.id = 0 :=
  c8_detector_total_on_gaps B1 0 (by decide)

/-- C1 fails on the code: starting from the full board `B1` whose only match
is the kind-0 triple with ids 0, 1, 2, one cascade round (removal, gravity,
refill) produces the layout handed to the next detection pass — and that
layout is not full: the three refilled gems sit at row `-1` and the three
in-bounds cells `(0,0)`, `(1,0)`, `(2,0)` are unoccupied, because
`processBoard` creates refill gems at negative rows and never moves them to
their final rows.  The final layout of the whole cascade has the same holes. -/
theorem c1_cascade_round_not_full :
    findMatches B1 = {0, 1, 2} ∧
    ({ id := 64, x := 0, y := -1, kind := 5 } : Gem) ∈ (cascadeStep draws5 st1).gems ∧
    getGemAt 0 0 (cascadeStep draws5 st1).gems = none ∧
    getGemAt 1 0 (cascadeStep draws5 st1).gems = none ∧
    getGemAt 2 0 (cascadeStep draws5 st1).gems = none ∧
    (processBoard draws5 2 st1 1 0).map (fun r => getGemAt 0 0 r.1.gems) = some none := by
  refine ⟨by decide, by decide, by decide, by decide, by decide, by decide⟩

lemma sumScore_eq_sum (ms : List Nat) :
    ∀ mult, sumScore mult ms =
      ∑ i ∈ Finset.range ms.length, ms.getD i 0 * 10 * (mult + i) := by
  induction ms with
  | nil => intro mult; simp [sumScore]
  | cons m ms ih =>
    intro mult
    rw [sumScore, ih (mult + 1), List.length_cons, Finset.sum_range_succ']
    have h1 : ∀ i ∈ Finset.range ms.length,
        (m :: ms).getD (i + 1) 0 * 10 * (mult + (i + 1)) =
          ms.getD i 0 * 10 * (mult + 1 + i) := by
      intro i _
      rw [List.getD_cons_succ]
      ring
    rw [Finset.sum_congr rfl h1]
    simp [List.getD_cons_zero]
    ring

lemma processBoard_score (draws : Nat → Nat) :
    ∀ fuel st mult acc r, processBoard draws fuel st mult acc = some r →
      r.2 = acc + sumScore mult (roundCounts draws fuel st) := by
  intro fuel
  induction fuel with
  | zero =>
    intro st mult acc r h
    exact absurd h (by simp [processBoard])
  | succ fuel ih =>
    intro st mult acc r h
    simp only [processBoard] at h
    simp only [roundCounts]
    by_cases hc : (findMatches st.gems).card = 0
    · rw [if_pos hc] at h
      rw [if_pos hc]
      simp only [Option.some.injEq] at h
      rw [← h]
      simp [sumScore]
    · rw [if_neg hc] at h
      rw [if_neg hc]
      rw [ih _ _ _ _ h, sumScore]
      ring

/-- C2: for every cascade run by `processBoard` from multiplier 1 that
terminates, the accumulated score delta equals the sum over rounds `i`
(1-indexed) of `m_i * 10 * i`, where `m_i` is the number of ids matched in
round `i` (the per-round counts are `roundCounts`, computed by the same
recursion). -/
theorem c2_cascade_score (draws : Nat → Nat) (fuel : Nat) (st : BoardState)
    (r : BoardState × Nat) (h : processBoard draws fuel st 1 0 = some r) :
    r.2 = ∑ i ∈ Finset.range (roundCounts draws fuel st).length,
        (roundCounts draws fuel st).getD i 0 * 10 * (1 + i) := by
  rw [processBoard_score draws fuel st 1 0 r h, sumScore_eq_sum]
  simp

/-- Witness for C2 at a concrete input: the cascade on `B1` matches 3 ids in
its single round and its total score delta is `3 * 10 * 1 = 30`. -/
theorem c2_cascade_score_witness :
    ∃ r, processBoard draws5 2 st1 1 0 = some r ∧
      r.2 = ∑ i ∈ Finset.range (roundCounts draws5 2 st1).length,
          (roundCounts draws5 2 st1).getD i 0 * 10 * (1 + i) := by
  refine ⟨(processBoard draws5 2 st1 1 0).getD (st1, 0), by decide, ?_⟩
  exact c2_cascade_score draws5 2 st1 _ (by decide)

lemma three_mem_card {s : Finset Nat} {a b c : Nat}
    (ha : a ∈ s) (hb : b ∈ s) (hc : c ∈ s)
    (hab : a ≠ b) (hac : a ≠ c) (hbc : b ≠ c) : 3 ≤ s.card := by
  have hsub : ({a, b, c} : Finset Nat) ⊆ s := by
    intro z hz
    rcases Finset.mem_insert.mp hz with rfl | hz
    · exact ha
    rcases Finset.mem_insert.mp hz with rfl | hz
    · exact hb
    rw [Finset.mem_singleton] at hz
    exact hz ▸ hc
  have hcard : ({a, b, c} : Finset Nat).card = 3 := by
    rw [Finset.card_insert_of_not_mem (by simp [hab, hac]),
      Finset.card_insert_of_not_mem (by simp [hbc]), Finset.card_singleton]
  rw [← hcard]
  exact Finset.card_le_card hsub

/-- C10: on any layout with unique token ids, a non-empty match set has at
least 3 elements, and consequently a cascade round that continues adds
exactly its count times `10 * multiplier` to the accumulator, which is at
least `30 * multiplier`. -/
theorem c10_match_at_least_three (draws : Nat → Nat) (fuel : Nat)
    (st : BoardState) (mult acc : Nat)
    (hids : ∀ g1, g1 ∈ st.gems → ∀ g2, g2 ∈ st.gems → g1.id = g2.id → g1 = g2)
    (hne : findMatches st.gems ≠ ∅) :
    3 ≤ (findMatches st.gems).card ∧
    30 * mult ≤ (findMatches st.gems).card * 10 * mult ∧
    processBoard draws (fuel + 1) st mult acc =
      processBoard draws fuel (cascadeStep draws st) (mult + 1)
        (acc + (findMatches st.gems).card * 10 * mult) := by
  have h3 : 3 ≤ (findMatches st.gems).card := by
    obtain ⟨m, hm⟩ := Finset.nonempty_iff_ne_empty.mpr hne
    rcases mem_findMatches_iff.mp hm with h | h
    · rcases mem_horizMatches_iff.mp h with ⟨y, hy, x, hx, hw⟩
      rcases hWindow_cases hw with ⟨g1, g2, g3, hg1, hg2, hg3, k2, k3, _⟩
      obtain ⟨p1x, _, p1m⟩ := getGemAt_some hg1
      obtain ⟨p2x, _, p2m⟩ := getGemAt_some hg2
      obtain ⟨p3x, _, p3m⟩ := getGemAt_some hg3
      have t3 := hWindow_of_fired hg1 hg2 hg3 k2 k3
      have n12 : g1 ≠ g2 := fun he => by
        rw [he, p2x] at p1x
        revert p1x
        push_cast
        omega
      have n13 : g1 ≠ g3 := fun he => by
        rw [he, p3x] at p1x
        revert p1x
        push_cast
        omega
      have n23 : g2 ≠ g3 := fun he => by
        rw [he, p3x] at p2x
        revert p2x
        push_cast
        omega
      exact three_mem_card (hWindow_subset hx hy t3.1) (hWindow_subset hx hy t3.2.1)
        (hWindow_subset hx hy t3.2.2)
        (fun he => n12 (hids g1 p1m g2 p2m he))
        (fun he => n13 (hids g1 p1m g3 p3m he))
        (fun he => n23 (hids g2 p2m g3 p3m he))
    · rcases mem_vertMatches_iff.mp h with ⟨x, hx, y, hy, hw⟩
      rcases vWindow_cases hw with ⟨g1, g2, g3, hg1, hg2, hg3, k2, k3, _⟩
      obtain ⟨_, p1y, p1m⟩ := getGemAt_some hg1
      obtain ⟨_, p2y, p2m⟩ := getGemAt_some hg2
      obtain ⟨_, p3y, p3m⟩ := getGemAt_some hg3
      have t3 := vWindow_of_fired hg1 hg2 hg3 k2 k3
      have n12 : g1 ≠ g2 := fun he => by
        rw [he, p2y] at p1y
        revert p1y
        push_cast
        omega
      have n13 : g1 ≠ g3 := fun he => by
        rw [he, p3y] at p1y
        revert p1y
        push_cast
        omega
      have n23 : g2 ≠ g3 := fun he => by
        rw [he, p3y] at p2y
        revert p2y
        push_cast
        omega
      exact three_mem_card (vWindow_subset hx hy t3.1) (vWindow_subset hx hy t3.2.1)
        (vWindow_subset hx hy t3.2.2)
        (fun he => n12 (hids g1 p1m g2 p2m he))
        (fun he => n13 (hids g1 p1m g3 p3m he))
        (fun he => n23 (hids g2 p2m g3 p3m he))
  refine ⟨h3, by nlinarith, ?_⟩
  simp only [processBoard]
  rw [if_neg (fun hc => hne (Finset.card_eq_zero.mp hc))]
  rfl

set_option maxRecDepth 4000 in
/-- Witness for C10 at a concrete input: `B1` has unique ids and a non-empty
match set, so the instantiated bounds and round equation hold. -/
theorem c10_match_at_least_three_witness :
    3 ≤ (findMatches st1.gems).card ∧
    30 * 1 ≤ (findMatches st1.gems).card * 10 * 1 ∧
    processBoard draws5 (1 + 1) st1 1 0 =
      processBoard draws5 1 (cascadeStep draws5 st1) (1 + 1)
        (0 + (findMatches st1.gems).card * 10 * 1) :=
  c10_match_at_least_three draws5 1 st1 1 0 (by decide) (by decide)

lemma find?_eq_some_of_unique {α : Type} {p : α → Bool} {l : List α} {a : α}
    (ha : a ∈ l) (hpa : p a = true) (huniq : ∀ b ∈ l, p b = true → b = a) :
    l.find? p = some a := by
  induction l with
  | nil => cases ha
  | cons h t ih =>
    by_cases hph : p h = true
    · rw [List.find?_cons_of_pos _ hph]
      exact congrArg some (huniq h (List.mem_cons_self h t) hph)
    · rw [List.find?_cons_of_neg _ (by simp [hph])]
      rcases List.mem_cons.mp ha with rfl | h2
      · exact absurd hpa hph
      · exact ih h2 fun b hb hpb => huniq b (List.mem_cons_of_mem _ hb) hpb

lemma mem_mkBoard {kinds ids : Nat → Nat → Nat} {g : Gem} :
    g ∈ mkBoard kinds ids ↔
      ∃ x y, x < COLS ∧ y < ROWS ∧ g = gemOf kinds ids x y := by
  simp only [mkBoard, List.mem_flatMap, List.mem_map, List.mem_range]
  constructor
  · rintro ⟨y, hy, x, hx, rfl⟩
    exact ⟨x, y, hx, hy, rfl⟩
  · rintro ⟨x, y, hx, hy, rfl⟩
    exact ⟨y, hy, x, hx, rfl⟩

lemma fullCanon_mkBoard (kinds ids : Nat → Nat → Nat) :
    fullCanon (mkBoard kinds ids) kinds ids := by
  intro x y hx hy
  apply find?_eq_some_of_unique
  · exact mem_mkBoard.mpr ⟨x, y, hx, hy, rfl⟩
  · simp [gemOf]
  · intro b hb hpb
    rcases mem_mkBoard.mp hb with ⟨x2, y2, _, _, rfl⟩
    simp only [gemOf, Bool.and_eq_true, beq_iff_eq] at hpb
    obtain ⟨e1, e2⟩ := hpb
    have ex : x2 = x := by exact_mod_cast e1
    have ey : y2 = y := by exact_mod_cast e2
    rw [ex, ey]

lemma extendRight_canon {l : List Gem} {kinds ids : Nat → Nat → Nat}
    (h : fullCanon l kinds ids) {y : Nat} (hy : y < ROWS) (t : Nat) :
    ∀ rem k, COLS - k ≤ rem → ∀ m,
      (m ∈ extendRight l t (y : Int) k rem ↔
        ∃ j, k ≤ j ∧ j < COLS ∧ (∀ u, k ≤ u → u ≤ j → kinds u y = t) ∧ m = ids j y) := by
  intro rem
  induction rem with
  | zero =>
    intro k hk m
    constructor
    · intro hm
      exact absurd hm (Finset.not_mem_empty m)
    · rintro ⟨j, hkj, hj, -, -⟩
      omega
  | succ rem ih =>
    intro k hk m
    by_cases hkc : k < COLS
    · have hstep : extendRight l t (y : Int) k (rem + 1) =
          if kinds k y = t then insert (ids k y) (extendRight l t (y : Int) (k + 1) rem)
          else ∅ := by
        rw [extendRight, if_pos hkc]
        simp only [h k y hkc hy]
        simp [gemOf]
      rw [hstep]
      by_cases ht : kinds k y = t
      · rw [if_pos ht, Finset.mem_insert, ih (k + 1) (by omega) m]
        constructor
        · rintro (rfl | ⟨j, hkj, hj, hall, rfl⟩)
          · exact ⟨k, le_refl k, hkc, fun u h1 h2 => by
              have : u = k := by omega
              rw [this]; exact ht, rfl⟩
          · refine ⟨j, by omega, hj, fun u h1 h2 => ?_, rfl⟩
            rcases Nat.lt_or_ge u (k + 1) with h3 | h3
            · have : u = k := by omega
              rw [this]; exact ht
            · exact hall u h3 h2
        · rintro ⟨j, hkj, hj, hall, rfl⟩
          rcases Nat.eq_or_lt_of_le hkj with rfl | hlt
          · exact Or.inl rfl
          · exact Or.inr ⟨j, by omega, hj, fun u h1 h2 => hall u (by omega) h2, rfl⟩
      · rw [if_neg ht]
        constructor
        · intro hm
          exact absurd hm (Finset.not_mem_empty m)
        · rintro ⟨j, hkj, hj, hall, rfl⟩
          exact absurd (hall k (le_refl k) (by omega)) ht
    · rw [extendRight, if_neg hkc]
      constructor
      · intro hm
        exact absurd hm (Finset.not_mem_empty m)
      · rintro ⟨j, hkj, hj, -, -⟩
        omega

lemma extendDown_canon {l : List Gem} {kinds ids : Nat → Nat → Nat}
    (h : fullCanon l kinds ids) {x : Nat} (hx : x < COLS) (t : Nat) :
    ∀ rem k, ROWS - k ≤ rem → ∀ m,
      (m ∈ extendDown l t (x : Int) k rem ↔
        ∃ j, k ≤ j ∧ j < ROWS ∧ (∀ u, k ≤ u → u ≤ j → kinds x u = t) ∧ m = ids x j) := by
  intro rem
  induction rem with
  | zero =>
    intro k hk m
    constructor
    · intro hm
      exact absurd hm (Finset.not_mem_empty m)
    · rintro ⟨j, hkj, hj, -, -⟩
      omega
  | succ rem ih =>
    intro k hk m
    by_cases hkc : k < ROWS
    · have hstep : extendDown l t (x : Int) k (rem + 1) =
          if kinds x k = t then insert (ids x k) (extendDown l t (x : Int) (k + 1) rem)
          else ∅ := by
        rw [extendDown, if_pos hkc]
        simp only [h x k hx hkc]
        simp [gemOf]
      rw [hstep]
      by_cases ht : kinds x k = t
      · rw [if_pos ht, Finset.mem_insert, ih (k + 1) (by omega) m]
        constructor
        · rintro (rfl | ⟨j, hkj, hj, hall, rfl⟩)
          · exact ⟨k, le_refl k, hkc, fun u h1 h2 => by
              have : u = k := by omega
              rw [this]; exact ht, rfl⟩
          · refine ⟨j, by omega, hj, fun u h1 h2 => ?_, rfl⟩
            rcases Nat.lt_or_ge u (k + 1) with h3 | h3
            · have : u = k := by omega
              rw [this]; exact ht
            · exact hall u h3 h2
        · rintro ⟨j, hkj, hj, hall, rfl⟩
          rcases Nat.eq_or_lt_of_le hkj with rfl | hlt
          · exact Or.inl rfl
          · exact Or.inr ⟨j, by omega, hj, fun u h1 h2 => hall u (by omega) h2, rfl⟩
      · rw [if_neg ht]
        constructor
        · intro hm
          exact absurd hm (Finset.not_mem_empty m)
        · rintro ⟨j, hkj, hj, hall, rfl⟩
          exact absurd (hall k (le_refl k) (by omega)) ht
    · rw [extendDown, if_neg hkc]
      constructor
      · intro hm
        exact absurd hm (Finset.not_mem_empty m)
      · rintro ⟨j, hkj, hj, -, -⟩
        omega

lemma hWindow_canon {l : List Gem} {kinds ids : Nat → Nat → Nat}
    (h : fullCanon l kinds ids) {x y : Nat} (hx : x + 2 < COLS) (hy : y < ROWS)
    (m : Nat) :
    m ∈ hWindow l x y ↔
      kinds x y = kinds (x + 1) y ∧ kinds x y = kinds (x + 2) y ∧
      ∃ c, x ≤ c ∧ c < COLS ∧ (∀ u, x ≤ u → u ≤ c → kinds u y = kinds x y) ∧
        m = ids c y := by
  have hw : hWindow l x y =
      if kinds x y = kinds (x + 1) y ∧ kinds x y = kinds (x + 2) y then
        insert (ids x y) (insert (ids (x + 1) y) (insert (ids (x + 2) y)
          (extendRight l (kinds x y) (y : Int) (x + 3) (COLS - (x + 3)))))
      else ∅ := by
    unfold hWindow
    simp only [h x y (by omega) hy, h (x + 1) y (by omega) hy, h (x + 2) y hx hy]
    simp [gemOf]
  rw [hw]
  by_cases hk : kinds x y = kinds (x + 1) y ∧ kinds x y = kinds (x + 2) y
  · rw [if_pos hk]
    simp only [Finset.mem_insert,
      extendRight_canon h hy (kinds x y) (COLS - (x + 3)) (x + 3) (by omega) m]
    constructor
    · rintro (rfl | rfl | rfl | ⟨j, hxj, hj, hall, rfl⟩)
      · exact ⟨hk.1, hk.2, x, le_refl x, by omega, fun u h1 h2 => by
          have : u = x := by omega
          rw [this], rfl⟩
      · exact ⟨hk.1, hk.2, x + 1, by omega, by omega, fun u h1 h2 => by
          have : u = x ∨ u = x + 1 := by omega
          rcases this with rfl | rfl
          · rfl
          · exact hk.1.symm, rfl⟩
      · exact ⟨hk.1, hk.2, x + 2, by omega, hx, fun u h1 h2 => by
          have : u = x ∨ u = x + 1 ∨ u = x + 2 := by omega
          rcases this with rfl | rfl | rfl
          · rfl
          · exact hk.1.symm
          · exact hk.2.symm, rfl⟩
      · refine ⟨hk.1, hk.2, j, by omega, hj, fun u h1 h2 => ?_, rfl⟩
        rcases Nat.lt_or_ge u (x + 3) with h3 | h3
        · have : u = x ∨ u = x + 1 ∨ u = x + 2 := by omega
          rcases this with rfl | rfl | rfl
          · rfl
          · exact hk.1.symm
          · exact hk.2.symm
        · exact hall u h3 h2
    · rintro ⟨-, -, c, hxc, hc, hall, rfl⟩
      have : c = x ∨ c = x + 1 ∨ c = x + 2 ∨ x + 3 ≤ c := by omega
      rcases this with rfl | rfl | rfl | h3
      · exact Or.inl rfl
      · exact Or.inr (Or.inl rfl)
      · exact Or.inr (Or.inr (Or.inl rfl))
      · exact Or.inr (Or.inr (Or.inr
          ⟨c, h3, hc, fun u h1 h2 => hall u (by omega) h2, rfl⟩))
  · rw [if_neg hk]
    constructor
    · intro hm
      exact absurd hm (Finset.not_mem_empty m)
    · rintro ⟨h1, h2, -⟩
      exact absurd ⟨h1, h2⟩ hk

lemma vWindow_canon {l : List Gem} {kinds ids : Nat → Nat → Nat}
    (h : fullCanon l kinds ids) {x y : Nat} (hx : x < COLS) (hy : y + 2 < ROWS)
    (m : Nat) :
    m ∈ vWindow l x y ↔
      kinds x y = kinds x (y + 1) ∧ kinds x y = kinds x (y + 2) ∧
      ∃ c, y ≤ c ∧ c < ROWS ∧ (∀ u, y ≤ u → u ≤ c → kinds x u = kinds x y) ∧
        m = ids x c := by
  have hw : vWindow l x y =
      if kinds x y = kinds x (y + 1) ∧ kinds x y = kinds x (y + 2) then
        insert (ids x y) (insert (ids x (y + 1)) (insert (ids x (y + 2))
          (extendDown l (kinds x y) (x : Int) (y + 3) (ROWS - (y + 3)))))
      else ∅ := by
    unfold vWindow
    simp only [h x y hx (by omega), h x (y + 1) hx (by omega), h x (y + 2) hx hy]
    simp [gemOf]
  rw [hw]
  by_cases hk : kinds x y = kinds x (y + 1) ∧ kinds x y = kinds x (y + 2)
  · rw [if_pos hk]
    simp only [Finset.mem_insert,
      extendDown_canon h hx (kinds x y) (ROWS - (y + 3)) (y + 3) (by omega) m]
    constructor
    · rintro (rfl | rfl | rfl | ⟨j, hyj, hj, hall, rfl⟩)
      · exact ⟨hk.1, hk.2, y, le_refl y, by omega, fun u h1 h2 => by
          have : u = y := by omega
          rw [this], rfl⟩
      · exact ⟨hk.1, hk.2, y + 1, by omega, by omega, fun u h1 h2 => by
          have : u = y ∨ u = y + 1 := by omega
          rcases this with rfl | rfl
          · rfl
          · exact hk.1.symm, rfl⟩
      · exact ⟨hk.1, hk.2, y + 2, by omega, hy, fun u h1 h2 => by
          have : u = y ∨ u = y + 1 ∨ u = y + 2 := by omega
          rcases this with rfl | rfl | rfl
          · rfl
          · exact hk.1.symm
          · exact hk.2.symm, rfl⟩
      · refine ⟨hk.1, hk.2, j, by omega, hj, fun u h1 h2 => ?_, rfl⟩
        rcases Nat.lt_or_ge u (y + 3) with h3 | h3
        · have : u = y ∨ u = y + 1 ∨ u = y + 2 := by omega
          rcases this with rfl | rfl | rfl
          · rfl
          · exact hk.1.symm
          · exact hk.2.symm
        · exact hall u h3 h2
    · rintro ⟨-, -, c, hyc, hc, hall, rfl⟩
      have : c = y ∨ c = y + 1 ∨ c = y + 2 ∨ y + 3 ≤ c := by omega
      rcases this with rfl | rfl | rfl | h3
      · exact Or.inl rfl
      · exact Or.inr (Or.inl rfl)
      · exact Or.inr (Or.inr (Or.inl rfl))
      · exact Or.inr (Or.inr (Or.inr
          ⟨c, h3, hc, fun u h1 h2 => hall u (by omega) h2, rfl⟩))
  · rw [if_neg hk]
    constructor
    · intro hm
      exact absurd hm (Finset.not_mem_empty m)
    · rintro ⟨h1, h2, -⟩
      exact absurd ⟨h1, h2⟩ hk

lemma findMatches_canon {l : List Gem} {kinds ids : Nat → Nat → Nat}
    (h : fullCanon l kinds ids) (m : Nat) :
    m ∈ findMatches l ↔ horizSpec kinds ids m ∨ vertSpec kinds ids m := by
  have hcols : COLS = 8 := rfl
  have hrows : ROWS = 8 := rfl
  rw [mem_findMatches_iff, mem_horizMatches_iff, mem_vertMatches_iff]
  constructor
  · rintro (⟨y, hy, x, hx, hw⟩ | ⟨x, hx, y, hy, hw⟩)
    · obtain ⟨k1, k2, c, hxc, hc, hall, rfl⟩ := (hWindow_canon h (by omega) hy _).mp hw
      exact Or.inl ⟨y, x, c, hy, by omega, k1, k2, hxc, hc, hall, rfl⟩
    · obtain ⟨k1, k2, c, hyc, hc, hall, rfl⟩ := (vWindow_canon h hx (by omega) _).mp hw
      exact Or.inr ⟨x, y, c, hx, by omega, k1, k2, hyc, hc, hall, rfl⟩
  · rintro (⟨y, x, c, hy, hx, k1, k2, hxc, hc, hall, rfl⟩ |
      ⟨x, y, c, hx, hy, k1, k2, hyc, hc, hall, rfl⟩)
    · exact Or.inl ⟨y, hy, x, by omega,
        (hWindow_canon h hx hy _).mpr ⟨k1, k2, c, hxc, hc, hall, rfl⟩⟩
    · exact Or.inr ⟨x, hx, y, by omega,
        (vWindow_canon h hx hy _).mpr ⟨k1, k2, c, hyc, hc, hall, rfl⟩⟩

/-- C4: on a full canonical layout containing a horizontal run of exactly
`k ≥ 3` same-kind cells (columns `a..a+k-1` of row `y0`, not extending
further on either side), with no other fired horizontal window and no fired
vertical window anywhere, the detector returns exactly the ids of the `k`
run cells — and, the ids being distinct, exactly `k` of them. -/
theorem c4_single_run_exact (kinds ids : Nat → Nat → Nat) (y0 a k : Nat)
    (hk3 : 3 ≤ k) (hbound : a + k ≤ COLS) (hy0 : y0 < ROWS)
    (hidinj : ∀ x1, x1 < COLS → ∀ y1, y1 < ROWS → ∀ x2, x2 < COLS →
      ∀ y2, y2 < ROWS → ids x1 y1 = ids x2 y2 → x1 = x2 ∧ y1 = y2)
    (hrun : ∀ i, i < k → kinds (a + i) y0 = kinds a y0)
    (hleft : a = 0 ∨ kinds (a - 1) y0 ≠ kinds a y0)
    (hright : a + k = COLS ∨ kinds (a + k) y0 ≠ kinds a y0)
    (hnoh : ∀ x, x < COLS - 2 → ∀ y, y < ROWS →
      kinds x y = kinds (x + 1) y → kinds x y = kinds (x + 2) y →
      y = y0 ∧ a ≤ x ∧ x + 2 < a + k)
    (hnov : ∀ x, x < COLS → ∀ y, y < ROWS - 2 →
      ¬(kinds x y = kinds x (y + 1) ∧ kinds x y = kinds x (y + 2))) :
    findMatches (mkBoard kinds ids) =
      (Finset.range k).image (fun i => ids (a + i) y0) ∧
    ((Finset.range k).image fun i => ids (a + i) y0).card = k := by
  have hcols : COLS = 8 := rfl
  have hrows : ROWS = 8 := rfl
  constructor
  · apply Finset.ext
    intro m
    rw [findMatches_canon (fullCanon_mkBoard kinds ids) m]
    constructor
    · rintro (⟨y, x, c, hy, hx2, k1, k2, hxc, hc, hall, rfl⟩ |
        ⟨x, y, c, hx, hy2, k1, k2, -, -, -, -⟩)
      · obtain ⟨rfl, hax, hxk⟩ := hnoh x (by omega) y hy k1 k2
        have h1 := hrun (x - a) (by omega)
        rw [show a + (x - a) = x by omega] at h1
        have hck : c < a + k := by
          by_contra hge
          push_neg at hge
          have hmem := hall (a + k) (by omega) (by omega)
          rcases hright with he | hne2
          · omega
          · exact hne2 (hmem.trans h1)
        refine Finset.mem_image.mpr ⟨c - a, Finset.mem_range.mpr (by omega), ?_⟩
        rw [show a + (c - a) = c by omega]
      · exact absurd ⟨k1, k2⟩ (hnov x hx y (by omega))
    · intro hm
      obtain ⟨i, hi, rfl⟩ := Finset.mem_image.mp hm
      rw [Finset.mem_range] at hi
      refine Or.inl ⟨y0, a, a + i, hy0, by omega, (hrun 1 (by omega)).symm,
        (hrun 2 (by omega)).symm, by omega, by omega, ?_, rfl⟩
      intro u h1 h2
      have h3 := hrun (u - a) (by omega)
      rw [show a + (u - a) = u by omega] at h3
      exact h3
  · rw [Finset.card_image_of_injOn, Finset.card_range]
    intro i hi j hj he
    rw [Finset.coe_range, Set.mem_Iio] at hi hj
    have := hidinj (a + i) (by omega) y0 hy0 (a + j) (by omega) y0 hy0 he
    omega

set_option maxRecDepth 8000 in
/-- Witness for C4 at a concrete input: `kinds1` has the single horizontal
run at columns 0..2 of row 0, and the detector on the canonical board
returns exactly the ids 0, 1, 2. -/
theorem c4_single_run_exact_witness :
    findMatches (mkBoard kinds1 ids0) =
      (Finset.range 3).image (fun i => ids0 (0 + i) 0) ∧
    ((Finset.range 3).image fun i => ids0 (0 + i) 0).card = 3 :=
  c4_single_run_exact kinds1 ids0 0 0 3 (by decide) (by decide) (by decide)
    (by
      intro x1 hx1 y1 hy1 x2 hx2 y2 hy2 he
      simp only [ids0, COLS] at he
      simp only [COLS, ROWS] at hx1 hy1 hx2 hy2
      omega)
    (by decide) (Or.inl rfl) (Or.inr (by decide))
    (by
      intro x hx y hy
      simp only [COLS, ROWS] at hx hy
      interval_cases x <;> interval_cases y <;> decide)
    (by
      intro x hx y hy
      simp only [COLS, ROWS] at hx hy
      interval_cases x <;> interval_cases y <;> decide)

lemma pickKind_not_bad {draws : Nat → Nat} {bad : Nat → Bool} :
    ∀ fuel di t di2, pickKind draws bad fuel di = some (t, di2) → bad t = false := by
  intro fuel
  induction fuel with
  | zero =>
    intro di t di2 h
    exact absurd h (by simp [pickKind])
  | succ fuel ih =>
    intro di t di2 h
    simp only [pickKind] at h
    by_cases hb : bad (draws di) = true
    · rw [if_pos hb] at h
      exact ih _ _ _ h
    · rw [if_neg hb] at h
      simp only [Option.some.injEq, Prod.mk.injEq] at h
      rw [← h.1]
      simpa using hb


lemma initGameAux_spec (draws : Nat → Nat) (pfuel c0 : Nat) :
    ∀ rem n acc kseq di l,
      initGameAux draws pfuel c0 rem n acc di = some l →
      acc.length = n →
      (∀ j, j < n → acc[j]? = some (cellGem c0 kseq (n - 1 - j))) →
      (∀ i, i < n → accepted kseq i) →
      ∃ k2, (∀ i, i < n → k2 i = kseq i) ∧ l.length = n + rem ∧
        (∀ j, j < n + rem → l[j]? = some (cellGem c0 k2 j)) ∧
        (∀ i, i < n + rem → accepted k2 i) := by
  have hc8 : COLS = 8 := rfl
  intro rem
  induction rem with
  | zero =>
    intro n acc kseq di l h hlen hidx hacc
    simp only [initGameAux, Option.some.injEq] at h
    subst h
    refine ⟨kseq, fun i _ => rfl, by rw [List.length_reverse, hlen, Nat.add_zero], ?_, ?_⟩
    · intro j hj
      rw [Nat.add_zero] at hj
      have hjl : j < acc.length := by omega
      rw [List.getElem?_reverse hjl, hlen]
      have hx := hidx (n - 1 - j) (by omega)
      rw [show n - 1 - (n - 1 - j) = j by omega] at hx
      exact hx
    · intro i hi
      exact hacc i (by omega)
  | succ rem ih =>
    intro n acc kseq di l h hlen hidx hacc
    simp only [initGameAux] at h
    split at h
    · next t di2 hpk =>
        have hbad := pickKind_not_bad pfuel di t di2 hpk
        set kmid := fun i => if i = n then t else kseq i with hkm
        have hmid : ∀ jj, jj < n → kmid jj = kseq jj := by
          intro jj hjj
          rw [hkm]
          exact if_neg (Nat.ne_of_lt hjj)
        have hkn : kmid n = t := by
          rw [hkm]
          simp
        have hlen2 : (({ id := c0 + n, x := ((n % COLS : Nat) : Int), y := ((n / COLS : Nat) : Int), kind := t } : Gem) :: acc).length = n + 1 := by
          simp [hlen]
        have hidx2 : ∀ j, j < n + 1 →
            (({ id := c0 + n, x := ((n % COLS : Nat) : Int), y := ((n / COLS : Nat) : Int), kind := t } : Gem) :: acc)[j]? =
              some (cellGem c0 kmid (n + 1 - 1 - j)) := by
          intro j hj
          match j with
          | 0 =>
            rw [List.getElem?_cons_zero]
            simp [cellGem, hkn]
          | j + 1 =>
            rw [List.getElem?_cons_succ]
            have hx := hidx j (by omega)
            rw [show n + 1 - 1 - (j + 1) = n - 1 - j by omega, hx]
            simp [cellGem, hmid (n - 1 - j) (by omega)]
        have hacc2 : ∀ i, i < n + 1 → accepted kmid i := by
          intro i hi
          rcases Nat.lt_or_ge i n with hin | hin
          · have ha := hacc i hin
            simp only [accepted] at ha ⊢
            rw [hmid i (by omega), hmid (i - 1) (by omega), hmid (i - 2) (by omega),
              hmid (i - COLS) (by omega), hmid (i - 2 * COLS) (by omega)]
            exact ha
          · have hieq : i = n := by omega
            subst hieq
            simp only [badKind, Bool.or_eq_false_iff] at hbad
            obtain ⟨hA, hB⟩ := hbad
            constructor
            · rintro ⟨hx2, e1, e2⟩
              have hn2 : 2 ≤ i := by
                rw [hc8] at hx2
                omega
              have ha0 := hidx 0 (by omega)
              have ha1 := hidx 1 (by omega)
              rw [ha0, ha1] at hA
              rw [hmid (i - 1) (by omega), hkn] at e1
              rw [hmid (i - 2) (by omega), hkn] at e2
              simp only [cellGem] at hA
              rw [decide_eq_true hx2, Bool.true_and] at hA
              rw [show i - 1 - 0 = i - 1 by omega, show i - 1 - 1 = i - 2 by omega] at hA
              rcases Bool.and_eq_false_iff.mp hA with h5 | h5
              · exact (beq_eq_false_iff_ne.mp h5) e1
              · exact (beq_eq_false_iff_ne.mp h5) e2
            · rintro ⟨hy2, e1, e2⟩
              have hn16 : 2 * COLS ≤ i := by
                rw [hc8] at hy2 ⊢
                omega
              have ha0 := hidx (COLS - 1) (by omega)
              have ha1 := hidx (2 * COLS - 1) (by omega)
              rw [ha0, ha1] at hB
              rw [hmid (i - COLS) (by omega), hkn] at e1
              rw [hmid (i - 2 * COLS) (by omega), hkn] at e2
              simp only [cellGem] at hB
              rw [decide_eq_true hy2, Bool.true_and] at hB
              rw [show i - 1 - (COLS - 1) = i - COLS by omega,
                show i - 1 - (2 * COLS - 1) = i - 2 * COLS by omega] at hB
              rcases Bool.and_eq_false_iff.mp hB with h5 | h5
              · exact (beq_eq_false_iff_ne.mp h5) e1
              · exact (beq_eq_false_iff_ne.mp h5) e2
        obtain ⟨k2, hagree, hl1, hl2, hl3⟩ := ih (n + 1) _ kmid di2 l h hlen2 hidx2 hacc2
        refine ⟨k2, ?_, by omega, ?_, ?_⟩
        · intro i hi
          rw [hagree i (by omega), hmid i hi]
        · intro j hj
          exact hl2 j (by omega)
        · intro i hi
          exact hl3 i (by omega)
    · exact absurd h (by simp)

/-- C3: whenever `initGame` succeeds (the row-major fill with the local
anti-match redraw loop), the match detector on the resulting layout returns
the empty set. -/
theorem c3_init_no_match (draws : Nat → Nat) (pfuel c0 : Nat) (l : List Gem)
    (h : initGame draws pfuel c0 = some l) : findMatches l = ∅ := by
  have hc8 : COLS = 8 := rfl
  have hr8 : ROWS = 8 := rfl
  obtain ⟨kq, -, hlen, hidx, hacc⟩ :=
    initGameAux_spec draws pfuel c0 (ROWS * COLS) 0 [] (fun _ => 0) 0 l h rfl
      (fun j hj => absurd hj (by omega)) (fun i hi => absurd hi (by omega))
  have hfc : fullCanon l (fun x y => kq (y * COLS + x))
      (fun x y => c0 + (y * COLS + x)) := by
    intro x y hx hy
    have hn : y * COLS + x < 0 + ROWS * COLS := by
      rw [hc8] at hx ⊢
      rw [hr8] at hy ⊢
      omega
    have hcell := hidx (y * COLS + x) hn
    have hxmod : (y * COLS + x) % COLS = x := by
      rw [hc8] at hx ⊢
      omega
    have hydiv : (y * COLS + x) / COLS = y := by
      rw [hc8] at hx ⊢
      omega
    have hconv : cellGem c0 kq (y * COLS + x) =
        gemOf (fun x y => kq (y * COLS + x)) (fun x y => c0 + (y * COLS + x)) x y := by
      simp [cellGem, gemOf, hxmod, hydiv]
    apply find?_eq_some_of_unique
    · obtain ⟨hlt, heq⟩ := List.getElem?_eq_some.mp hcell
      rw [← hconv, ← heq]
      exact List.getElem_mem hlt
    · simp [gemOf]
    · intro b hb hpb
      obtain ⟨j, hjlt, rfl⟩ := List.mem_iff_getElem.mp hb
      have hj2 := hidx j (by omega)
      have hj3 : l[j]? = some l[j] := List.getElem?_eq_getElem hjlt
      have hbj : l[j] = cellGem c0 kq j := Option.some.inj (hj3.symm.trans hj2)
      rw [hbj] at hpb ⊢
      simp only [cellGem, Bool.and_eq_true, beq_iff_eq] at hpb
      obtain ⟨e1, e2⟩ := hpb
      have ex : j % COLS = x := by exact_mod_cast e1
      have ey : j / COLS = y := by exact_mod_cast e2
      have hjeq : j = y * COLS + x := by
        rw [hc8] at ex ey ⊢
        omega
      rw [hjeq]
      exact hconv
  apply Finset.eq_empty_iff_forall_not_mem.mpr
  intro m hm
  rcases (findMatches_canon hfc m).mp hm with hsp | hsp
  · obtain ⟨y, x, c, hy, hx2, k1, k2, -⟩ := hsp
    have hacc2 := hacc (y * COLS + (x + 2)) (by
      rw [hc8] at hx2 ⊢
      rw [hr8] at hy ⊢
      omega)
    apply hacc2.1
    refine ⟨?_, ?_, ?_⟩
    · rw [hc8] at hx2 ⊢
      omega
    · rw [show y * COLS + (x + 2) - 1 = y * COLS + (x + 1) by omega]
      exact k1.symm.trans k2
    · rw [show y * COLS + (x + 2) - 2 = y * COLS + x by omega]
      exact k2
  · obtain ⟨x, y, c, hx, hy2, k1, k2, -⟩ := hsp
    have hacc2 := hacc ((y + 2) * COLS + x) (by
      rw [hc8] at hx ⊢
      rw [hr8] at hy2 ⊢
      omega)
    apply hacc2.2
    refine ⟨?_, ?_, ?_⟩
    · rw [hc8] at hx ⊢
      omega
    · rw [show (y + 2) * COLS + x - COLS = (y + 1) * COLS + x by rw [hc8]; omega]
      exact k1.symm.trans k2
    · rw [show (y + 2) * COLS + x - 2 * COLS = y * COLS + x by rw [hc8]; omega]
      exact k2

/-- Witness for C3 at a concrete input: under the draw stream `drawsInit`
(whose first draw at every cell already passes the redraw check),
`initGame` succeeds and the resulting board has no matches. -/
theorem c3_init_no_match_witness :
    findMatches ((initGame drawsInit 1 0).getD []) = ∅ :=
  c3_init_no_match drawsInit 1 0 _ (by decide)

lemma filter_flatMap {α β : Type} (l : List α) (f : α → List β) (p : β → Bool) :
    (l.flatMap f).filter p = l.flatMap fun a => (f a).filter p := by
  induction l with
  | nil => rfl
  | cons a l ih =>
    rw [List.flatMap_cons, List.flatMap_cons, List.filter_append, ih]

lemma flatMap_if_singleton {α β : Type} (l : List α) (p : α → Bool) (f : α → β) :
    (l.flatMap fun a => if p a then [f a] else []) = (l.filter p).map f := by
  induction l with
  | nil => rfl
  | cons a l ih =>
    rw [List.flatMap_cons, List.filter_cons]
    by_cases hp : p a
    · rw [if_pos hp, if_pos hp, List.map_cons, ih]
      rfl
    · rw [if_neg hp, if_neg hp, ih]
      rfl

lemma range_filter_eq_and (x : Nat) (p : Nat → Bool) :
    ∀ n, (List.range n).filter (fun a => (a == x) && p a) =
      if x < n ∧ p x then [x] else [] := by
  intro n
  induction n with
  | zero => simp
  | succ n ih =>
    rw [List.range_succ, List.filter_append, ih]
    by_cases hx : x < n ∧ p x = true
    · rw [if_pos hx, if_pos ⟨by omega, hx.2⟩]
      have : (n == x) = false := by
        simp only [beq_eq_false_iff_ne]
        omega
      simp [List.filter_cons, this]
    · rw [if_neg hx]
      by_cases hxn : x = n
      · subst hxn
        by_cases hp : p x = true
        · rw [if_pos ⟨by omega, hp⟩]
          simp [List.filter_cons, hp]
        · rw [if_neg (by tauto)]
          simp [List.filter_cons, hp]
      · rw [if_neg (by rintro ⟨h1, h2⟩; exact hx ⟨by omega, h2⟩)]
        have : (n == x) = false := by
          simp only [beq_eq_false_iff_ne]
          omega
        simp [List.filter_cons, this]

lemma colOf_removeMatched_mkBoard (kinds ids : Nat → Nat → Nat) (M : Finset Nat)
    {x : Nat} (hx : x < COLS) :
    colOf (removeMatched (mkBoard kinds ids) M) x =
      (survRows ids M x).map fun y => gemOf kinds ids x y := by
  rw [colOf, removeMatched, List.filter_filter, mkBoard, filter_flatMap]
  have hinner : ∀ y, ((List.range COLS).map fun x2 => gemOf kinds ids x2 y).filter
      (fun g => (g.x == (x : Int)) && decide (g.id ∉ M)) =
      if decide (ids x y ∉ M) then [gemOf kinds ids x y] else [] := by
    intro y
    rw [List.filter_map]
    have hcong : ((List.range COLS).filter
        ((fun g => (g.x == (x : Int)) && decide (g.id ∉ M)) ∘ fun x2 => gemOf kinds ids x2 y)) =
        (List.range COLS).filter fun a => (a == x) && decide (ids a y ∉ M) := by
      apply List.filter_congr
      intro a _
      simp only [Function.comp, gemOf]
      by_cases h : a = x
      · simp [h]
      · have hne : (a : Int) ≠ (x : Int) := by exact_mod_cast h
        rw [beq_eq_false_iff_ne.mpr hne, beq_eq_false_iff_ne.mpr h]
    rw [hcong, range_filter_eq_and]
    by_cases hmem : ids x y ∉ M
    · rw [if_pos ⟨hx, decide_eq_true hmem⟩, if_pos (decide_eq_true hmem),
        List.map_cons, List.map_nil]
    · have hd : decide (ids x y ∉ M) = false := decide_eq_false hmem
      rw [if_neg (by rw [hd]; rintro ⟨-, h2⟩; cases h2), if_neg (by rw [hd]; intro h2; cases h2),
        List.map_nil]
  simp only [hinner]
  exact flatMap_if_singleton _ _ _

lemma sortByY_col_eq (kinds ids : Nat → Nat → Nat) (M : Finset Nat)
    {x : Nat} (hx : x < COLS) :
    sortByY (colOf (removeMatched (mkBoard kinds ids) M) x) =
      (survRows ids M x).map fun y => gemOf kinds ids x y := by
  rw [colOf_removeMatched_mkBoard kinds ids M hx]
  apply List.Sorted.insertionSort_eq
  have hpr : (survRows ids M x).Pairwise (fun a b => a < b) :=
    List.Pairwise.sublist (List.filter_sublist _) (List.pairwise_lt_range ROWS)
  refine List.pairwise_map.mpr (List.Pairwise.imp ?_ hpr)
  intro a b hab
  show (gemOf kinds ids x a).y ≤ (gemOf kinds ids x b).y
  simp only [gemOf]
  exact_mod_cast Nat.le_of_lt hab

lemma movedOf_eq (kinds ids : Nat → Nat → Nat) (M : Finset Nat)
    {x : Nat} (hx : x < COLS) :
    movedOf (removeMatched (mkBoard kinds ids) M) x =
      (List.range (survRows ids M x).length).map (survGem kinds ids M x) := by
  rw [movedOf, sortByY_col_eq kinds ids M hx]
  apply List.ext_getElem
  · simp
  · intro i h1 h2
    simp only [List.getElem_map, List.getElem_enum, List.getElem_range]
    simp only [List.enum_length, List.length_map] at h1
    have hgd : (survRows ids M x).getD i 0 = (survRows ids M x)[i] :=
      List.getD_eq_getElem (survRows ids M x) 0 h1
    simp only [survGem, gemOf, hgd, List.length_map]
    refine Gem.mk.injEq _ _ _ _ _ _ _ _ |>.mpr ⟨rfl, rfl, ?_, rfl⟩
    rw [Nat.add_comm]

lemma goCols_moved_mem (draws : Nat → Nat) (gems : List Gem) :
    ∀ xs nid did x, x ∈ xs → ∀ g, g ∈ movedOf gems x →
      g ∈ (goCols draws gems xs nid did).1 := by
  intro xs
  induction xs with
  | nil =>
    intro nid did x hx
    cases hx
  | cons z xs ih =>
    intro nid did x hx g hg
    simp only [goCols]
    rw [List.mem_append, List.mem_append]
    rcases List.mem_cons.mp hx with rfl | hx2
    · left
      right
      simpa [movedOf, colOf] using hg
    · right
      exact ih _ _ x hx2 g hg

lemma goCols_mem_inv (draws : Nat → Nat) (gems : List Gem) :
    ∀ xs nid did g, g ∈ (goCols draws gems xs nid did).1 →
      g.y < 0 ∨ ∃ x ∈ xs, g ∈ movedOf gems x := by
  intro xs
  induction xs with
  | nil =>
    intro nid did g hg
    simp [goCols] at hg
  | cons z xs ih =>
    intro nid did g hg
    simp only [goCols] at hg
    rw [List.mem_append, List.mem_append] at hg
    rcases hg with (hn | hm) | hr
    · left
      simp only [List.mem_map, List.mem_range] at hn
      obtain ⟨i, hi, rfl⟩ := hn
      show (i : Int) - ((ROWS - (sortByY (gems.filter fun g => g.x == ((z : Nat) : Int))).length : Nat) : Int) < 0
      omega
    · right
      refine ⟨z, List.mem_cons_self z xs, ?_⟩
      simpa [movedOf, colOf] using hm
    · rcases ih _ _ g hr with h1 | ⟨x, hx, h2⟩
      · exact Or.inl h1
      · exact Or.inr ⟨x, List.mem_cons_of_mem _ hx, h2⟩

lemma movedOf_x (gems : List Gem) (x : Nat) :
    ∀ g ∈ movedOf gems x, g.x = (x : Int) := by
  intro g hg
  simp only [movedOf, List.mem_map] at hg
  obtain ⟨p, hp, rfl⟩ := hg
  have h2 : p.2 ∈ sortByY (colOf gems x) := by
    obtain ⟨i, hi, hpi⟩ := List.mem_iff_getElem.mp hp
    have hi2 : i < (sortByY (colOf gems x)).length := by
      rw [List.enum_length] at hi
      exact hi
    rw [List.getElem_enum] at hpi
    have hsnd : p.2 = (sortByY (colOf gems x))[i] := by
      rw [← hpi]
    rw [hsnd]
    apply List.getElem_mem
  have h3 : p.2 ∈ colOf gems x := (List.mem_insertionSort _).mp h2
  have h4 := (List.mem_filter.mp h3).2
  simpa using h4

/-- C5: after one removal-plus-gravity step on a full canonical board (any
match set `M`), each column `x` places its `k` surviving tokens at rows
`ROWS - k .. ROWS - 1` in their original top-to-bottom order (the `i`-th
survivor by pre-removal row keeps its id and kind and lands on row
`ROWS - k + i`), and the in-bounds tokens of column `x` in the resulting
layout are exactly those — survivors never cross. -/
theorem c5_gravity_order (kinds ids : Nat → Nat → Nat) (M : Finset Nat)
    (draws : Nat → Nat) (nid did : Nat) (x : Nat) (hx : x < COLS) :
    (∀ i, i < (survRows ids M x).length →
      survGem kinds ids M x i ∈
        (gravityRefill draws
          { gems := removeMatched (mkBoard kinds ids) M,
            nextId := nid, drawIdx := did }).gems) ∧
    (∀ g ∈ (gravityRefill draws
        { gems := removeMatched (mkBoard kinds ids) M,
          nextId := nid, drawIdx := did }).gems,
      g.x = (x : Int) → 0 ≤ g.y →
      ∃ i, i < (survRows ids M x).length ∧ g = survGem kinds ids M x i) := by
  have hmv := movedOf_eq kinds ids M hx
  constructor
  · intro i hi
    show survGem kinds ids M x i ∈
      (goCols draws (removeMatched (mkBoard kinds ids) M) (List.range COLS) nid did).1
    apply goCols_moved_mem draws _ (List.range COLS) nid did x (List.mem_range.mpr hx)
    rw [hmv]
    exact List.mem_map.mpr ⟨i, List.mem_range.mpr hi, rfl⟩
  · intro g hg hgx hgy
    have hg2 : g ∈
        (goCols draws (removeMatched (mkBoard kinds ids) M) (List.range COLS) nid did).1 := hg
    rcases goCols_mem_inv draws _ (List.range COLS) nid did g hg2 with h1 | ⟨x2, -, h2⟩
    · omega
    · have hxx : x2 = x := by
        have h3 := movedOf_x _ x2 g h2
        have h4 : (x2 : Int) = (x : Int) := h3.symm.trans hgx
        exact_mod_cast h4
      subst hxx
      rw [hmv] at h2
      obtain ⟨i, hi, rfl⟩ := List.mem_map.mp h2
      exact ⟨i, List.mem_range.mp hi, rfl⟩

set_option maxRecDepth 4000 in
/-- Witness for C5 at a concrete input: removing the row-0 triple of `B1`
(ids 0, 1, 2) leaves column 0 with 7 survivors, which gravity re-rows to
rows 1..7 in original order; the in-bounds column-0 gems of the result are
exactly those. -/
theorem c5_gravity_order_witness :
    (∀ i, i < (survRows ids0 ({0, 1, 2} : Finset Nat) 0).length →
      survGem kinds1 ids0 ({0, 1, 2} : Finset Nat) 0 i ∈
        (gravityRefill draws5
          { gems := removeMatched (mkBoard kinds1 ids0) ({0, 1, 2} : Finset Nat),
            nextId := 64, drawIdx := 0 }).gems) ∧
    (∀ g ∈ (gravityRefill draws5
        { gems := removeMatched (mkBoard kinds1 ids0) ({0, 1, 2} : Finset Nat),
          nextId := 64, drawIdx := 0 }).gems,
      g.x = ((0 : Nat) : Int) → 0 ≤ g.y →
      ∃ i, i < (survRows ids0 ({0, 1, 2} : Finset Nat) 0).length ∧
        g = survGem kinds1 ids0 ({0, 1, 2} : Finset Nat) 0 i) :=
  c5_gravity_order kinds1 ids0 ({0, 1, 2} : Finset Nat) draws5 64 0 0 (by decide)

lemma getGemAt_relabel (f : Nat → Nat) (x y : Int) (l : List Gem) :
    getGemAt x y (l.map (relabelGem f)) = (getGemAt x y l).map (relabelGem f) :=
  List.find?_map (relabelGem f) l

lemma extendRight_relabel (f : Nat → Nat) (l : List Gem) (t : Nat) (y : Int) :
    ∀ rem k, extendRight (l.map (relabelGem f)) t y k rem =
      (extendRight l t y k rem).image f := by
  intro rem
  induction rem with
  | zero =>
    intro k
    simp [extendRight]
  | succ rem ih =>
    intro k
    rw [extendRight, extendRight]
    by_cases hk : k < COLS
    · rw [if_pos hk, if_pos hk, getGemAt_relabel]
      rcases hg : getGemAt (k : Int) y l with _ | nxt
      · simp
      · simp only [Option.map_some]
        show (if nxt.kind = t then insert (f nxt.id)
            (extendRight (l.map (relabelGem f)) t y (k + 1) rem) else ∅) = _
        by_cases ht : nxt.kind = t
        · rw [if_pos ht, if_pos ht, ih (k + 1), Finset.image_insert]
        · rw [if_neg ht, if_neg ht]
          simp
    · rw [if_neg hk, if_neg hk]
      simp

lemma extendDown_relabel (f : Nat → Nat) (l : List Gem) (t : Nat) (x : Int) :
    ∀ rem k, extendDown (l.map (relabelGem f)) t x k rem =
      (extendDown l t x k rem).image f := by
  intro rem
  induction rem with
  | zero =>
    intro k
    simp [extendDown]
  | succ rem ih =>
    intro k
    rw [extendDown, extendDown]
    by_cases hk : k < ROWS
    · rw [if_pos hk, if_pos hk, getGemAt_relabel]
      rcases hg : getGemAt x (k : Int) l with _ | nxt
      · simp
      · simp only [Option.map_some]
        show (if nxt.kind = t then insert (f nxt.id)
            (extendDown (l.map (relabelGem f)) t x (k + 1) rem) else ∅) = _
        by_cases ht : nxt.kind = t
        · rw [if_pos ht, if_pos ht, ih (k + 1), Finset.image_insert]
        · rw [if_neg ht, if_neg ht]
          simp
    · rw [if_neg hk, if_neg hk]
      simp

lemma hWindow_relabel (f : Nat → Nat) (l : List Gem) (x y : Nat) :
    hWindow (l.map (relabelGem f)) x y = (hWindow l x y).image f := by
  unfold hWindow
  rw [getGemAt_relabel, getGemAt_relabel, getGemAt_relabel]
  rcases h1 : getGemAt (x : Int) (y : Int) l with _ | g1
  · simp
  rcases h2 : getGemAt ((x + 1 : Nat) : Int) (y : Int) l with _ | g2
  · simp
  rcases h3 : getGemAt ((x + 2 : Nat) : Int) (y : Int) l with _ | g3
  · simp
  simp only [Option.map_some]
  show (if g1.kind = g2.kind ∧ g1.kind = g3.kind then
      insert (f g1.id) (insert (f g2.id) (insert (f g3.id)
        (extendRight (l.map (relabelGem f)) g1.kind (y : Int) (x + 3) (COLS - (x + 3)))))
    else ∅) = _
  by_cases hk : g1.kind = g2.kind ∧ g1.kind = g3.kind
  · rw [if_pos hk, if_pos hk, extendRight_relabel, Finset.image_insert,
      Finset.image_insert, Finset.image_insert]
  · rw [if_neg hk, if_neg hk]
    simp

lemma vWindow_relabel (f : Nat → Nat) (l : List Gem) (x y : Nat) :
    vWindow (l.map (relabelGem f)) x y = (vWindow l x y).image f := by
  unfold vWindow
  rw [getGemAt_relabel, getGemAt_relabel, getGemAt_relabel]
  rcases h1 : getGemAt (x : Int) (y : Int) l with _ | g1
  · simp
  rcases h2 : getGemAt (x : Int) ((y + 1 : Nat) : Int) l with _ | g2
  · simp
  rcases h3 : getGemAt (x : Int) ((y + 2 : Nat) : Int) l with _ | g3
  · simp
  simp only [Option.map_some]
  show (if g1.kind = g2.kind ∧ g1.kind = g3.kind then
      insert (f g1.id) (insert (f g2.id) (insert (f g3.id)
        (extendDown (l.map (relabelGem f)) g1.kind (x : Int) (y + 3) (ROWS - (y + 3)))))
    else ∅) = _
  by_cases hk : g1.kind = g2.kind ∧ g1.kind = g3.kind
  · rw [if_pos hk, if_pos hk, extendDown_relabel, Finset.image_insert,
      Finset.image_insert, Finset.image_insert]
  · rw [if_neg hk, if_neg hk]
    simp

lemma findMatches_relabel (f : Nat → Nat) (l : List Gem) :
    findMatches (l.map (relabelGem f)) = (findMatches l).image f := by
  unfold findMatches horizMatches vertMatches
  rw [Finset.image_union, Finset.biUnion_image, Finset.biUnion_image]
  congr 1
  · apply Finset.biUnion_congr rfl
    intro y _
    rw [Finset.biUnion_image]
    apply Finset.biUnion_congr rfl
    intro x _
    exact hWindow_relabel f l x y
  · apply Finset.biUnion_congr rfl
    intro x _
    rw [Finset.biUnion_image]
    apply Finset.biUnion_congr rfl
    intro y _
    exact vWindow_relabel f l x y

lemma removeMatched_relabel (f : Nat → Nat) (hf : Function.Injective f)
    (l : List Gem) (M : Finset Nat) :
    removeMatched (l.map (relabelGem f)) (M.image f) =
      (removeMatched l M).map (relabelGem f) := by
  unfold removeMatched
  rw [List.filter_map]
  congr 1
  apply List.filter_congr
  intro g _
  have hiff : f g.id ∈ M.image f ↔ g.id ∈ M := by
    constructor
    · intro h
      obtain ⟨a, ha, he⟩ := Finset.mem_image.mp h
      rwa [← hf he]
    · exact fun h => Finset.mem_image_of_mem f h
  simp [Function.comp, relabelGem, hiff]

lemma sortByY_relabel (f : Nat → Nat) (l : List Gem) :
    sortByY (l.map (relabelGem f)) = (sortByY l).map (relabelGem f) := by
  unfold sortByY
  exact (List.map_insertionSort _ _ (relabelGem f) l fun a _ b _ => Iff.rfl).symm

lemma goCols_relabel (f : Nat → Nat) (draws draws2 : Nat → Nat)
    (hconst : ∀ i j, draws i = draws2 j) (gems : List Gem) :
    ∀ xs nid did did2, (∀ j, f (nid + j) = f nid + j) →
      (goCols draws (gems.map (relabelGem f)) xs (f nid) did).1 =
          ((goCols draws2 gems xs nid did2).1).map (relabelGem f) ∧
        (goCols draws (gems.map (relabelGem f)) xs (f nid) did).2.1 =
          f ((goCols draws2 gems xs nid did2).2.1) := by
  intro xs
  induction xs with
  | nil =>
    intro nid did did2 hlin
    exact ⟨rfl, rfl⟩
  | cons z xs ih =>
    intro nid did did2 hlin
    simp only [goCols]
    have hcol : (gems.map (relabelGem f)).filter (fun g => g.x == ((z : Nat) : Int)) =
        (gems.filter fun g => g.x == ((z : Nat) : Int)).map (relabelGem f) := by
      rw [List.filter_map]
      congr 1
    have hsort : sortByY ((gems.map (relabelGem f)).filter fun g => g.x == ((z : Nat) : Int)) =
        (sortByY (gems.filter fun g => g.x == ((z : Nat) : Int))).map (relabelGem f) := by
      rw [hcol, sortByY_relabel]
    set K := sortByY (gems.filter fun g => g.x == ((z : Nat) : Int)) with hK
    set miss := ROWS - K.length with hmissdef
    rw [hsort, List.length_map, ← hmissdef]
    have hlin2 : ∀ j, f (nid + miss + j) = f (nid + miss) + j := by
      intro j
      have h1 := hlin (miss + j)
      have h2 := hlin miss
      rw [← Nat.add_assoc] at h1
      omega
    obtain ⟨ih1, ih2⟩ := ih (nid + miss) (did + miss) (did2 + miss) hlin2
    rw [hlin miss] at ih1 ih2
    have hnews : (List.range miss).map (fun i =>
        ({ id := f nid + i, x := ((z : Nat) : Int), y := (i : Int) - (miss : Int),
           kind := draws (did + i) } : Gem)) =
        ((List.range miss).map fun i =>
          ({ id := nid + i, x := ((z : Nat) : Int), y := (i : Int) - (miss : Int),
             kind := draws2 (did2 + i) } : Gem)).map (relabelGem f) := by
      rw [List.map_map]
      apply List.map_congr_left
      intro i _
      simp only [Function.comp, relabelGem, hlin i, hconst (did + i) (did2 + i)]
    have hmoved : (K.map (relabelGem f)).enum.map
          (fun p => { p.2 with y := ((p.1 + miss : Nat) : Int) }) =
        (K.enum.map fun p => { p.2 with y := ((p.1 + miss : Nat) : Int) }).map
          (relabelGem f) := by
      rw [List.enum_map, List.map_map, List.map_map]
      apply List.map_congr_left
      intro p _
      rfl
    constructor
    · rw [List.map_append, List.map_append, hnews, hmoved, ih1]
    · exact ih2

lemma fc_inj {c : Nat} (hc : 70 ≤ c) : Function.Injective (fc c) := by
  intro i j h
  unfold fc at h
  split_ifs at h <;> omega

lemma fc_70 {c : Nat} (hc : 70 ≤ c) : fc c 70 = c := by
  unfold fc
  rw [if_neg (by omega)]
  omega

lemma fc_73 {c : Nat} (hc : 70 ≤ c) : fc c 73 = c + 3 := by
  unfold fc
  rw [if_neg (by omega)]
  omega

lemma fc_lin {c : Nat} (hc : 70 ≤ c) : ∀ j, fc c (70 + j) = fc c 70 + j := by
  intro j
  unfold fc
  rw [if_neg (by omega), if_neg (by omega)]
  omega

lemma fc_comp {c : Nat} (hc : 70 ≤ c) : ∀ i, i ≤ 72 → fc c (fc 73 i) = fc (c + 3) i := by
  intro i hi
  unfold fc
  split_ifs <;> omega

lemma BoardState.ext2 (a b : BoardState) (h1 : a.gems = b.gems)
    (h2 : a.nextId = b.nextId) (h3 : a.drawIdx = b.drawIdx) : a = b := by
  cases a
  cases b
  simp_all

lemma tmpl_matches : findMatches tmplGems = {64, 65, 66} := by decide

lemma tmpl_ids_le : ∀ g ∈ tmplGems, g.id ≤ 72 := by decide

lemma tmpl_step70 :
    (goCols draws0 (removeMatched tmplGems {64, 65, 66}) (List.range COLS) 70 0).1 =
      tmplGems.map (relabelGem (fc 73)) := by decide

lemma tmpl_step70_nid :
    (goCols draws0 (removeMatched tmplGems {64, 65, 66}) (List.range COLS) 70 0).2.1 = 73 := by
  decide

lemma tmpl_step (c : Nat) (hc : 70 ≤ c) (did : Nat) :
    (cascadeStep draws0 (⟨tmplGems.map (relabelGem (fc c)), c, did⟩ : BoardState)).gems =
      tmplGems.map (relabelGem (fc (c + 3))) ∧
    (cascadeStep draws0 (⟨tmplGems.map (relabelGem (fc c)), c, did⟩ : BoardState)).nextId =
      c + 3 := by
  have hM : findMatches (tmplGems.map (relabelGem (fc c))) =
      ({64, 65, 66} : Finset Nat).image (fc c) := by
    rw [findMatches_relabel, tmpl_matches]
  have hRM : removeMatched (tmplGems.map (relabelGem (fc c)))
      (({64, 65, 66} : Finset Nat).image (fc c)) =
      (removeMatched tmplGems {64, 65, 66}).map (relabelGem (fc c)) :=
    removeMatched_relabel (fc c) (fc_inj hc) tmplGems {64, 65, 66}
  have hgo := goCols_relabel (fc c) draws0 draws0 (fun i j => rfl)
      (removeMatched tmplGems {64, 65, 66}) (List.range COLS) 70 did 0 (fc_lin hc)
  rw [fc_70 hc] at hgo
  constructor
  · simp only [cascadeStep, cascadeRound, gravityRefill]
    rw [hM, hRM, hgo.1, tmpl_step70, List.map_map]
    apply List.map_congr_left
    intro g hg
    simp only [Function.comp, relabelGem, fc_comp hc g.id (tmpl_ids_le g hg)]
  · simp only [cascadeStep, cascadeRound, gravityRefill]
    rw [hM, hRM, hgo.2, tmpl_step70_nid, fc_73 hc]

lemma processBoard_tmpl_none :
    ∀ fuel c, 70 ≤ c → ∀ did mult acc,
      processBoard draws0 fuel (⟨tmplGems.map (relabelGem (fc c)), c, did⟩ : BoardState)
        mult acc = none := by
  intro fuel
  induction fuel with
  | zero =>
    intro c hc did mult acc
    rfl
  | succ fuel ih =>
    intro c hc did mult acc
    simp only [processBoard]
    have hcard : ¬ (findMatches (tmplGems.map (relabelGem (fc c)))).card = 0 := by
      rw [findMatches_relabel, tmpl_matches]
      exact Finset.card_ne_zero_of_mem (Finset.mem_image_of_mem (fc c)
        (show (64 : Nat) ∈ ({64, 65, 66} : Finset Nat) by decide))
    rw [if_neg hcard]
    have hst := BoardState.ext2
      (cascadeRound draws0 (findMatches (tmplGems.map (relabelGem (fc c))))
        (⟨tmplGems.map (relabelGem (fc c)), c, did⟩ : BoardState))
      (⟨tmplGems.map (relabelGem (fc (c + 3))), c + 3,
        (cascadeRound draws0 (findMatches (tmplGems.map (relabelGem (fc c))))
          (⟨tmplGems.map (relabelGem (fc c)), c, did⟩ : BoardState)).drawIdx⟩ : BoardState)
      (tmpl_step c hc did).1 (tmpl_step c hc did).2 rfl
    rw [hst]
    exact ih (c + 3) (by omega) _ (mult + 1) _

lemma tmplState_never_stabilises :
    ∀ fuel, processBoard draws0 fuel tmplState 1 0 = none := by
  intro fuel
  have h0 : tmplState = (⟨tmplGems.map (relabelGem (fc 70)), 70, 0⟩ : BoardState) := by
    decide
  rw [h0]
  exact processBoard_tmpl_none fuel 70 (by omega) 0 1 0

/-- C9 fails on the code as claimed: termination is not guaranteed for every
draw stream.  From the concrete mid-cascade board `tmplState` (up to ids,
what one round leaves of a full board) under the constant kind-0 refill stream,
`processBoard` never returns, whatever recursion depth it is allowed: every
round matches the three kind-0 gems at rows 3..5 of column 0, and the three
gems refilled two rounds earlier slide down to recreate the same triple. -/
theorem c9_nonterminating_cascade :
    resolverTerminates draws0 tmplState = False := by
  apply eq_false
  rintro ⟨fuel, r, hr⟩
  rw [tmplState_never_stabilises fuel] at hr
  cases hr

lemma processBoard_some_of_empty_round (draws : Nat → Nat) :
    ∀ n st mult acc,
      (findMatches (((cascadeStep draws)^[n]) st).gems).card = 0 →
      ∃ r, processBoard draws (n + 1) st mult acc = some r := by
  intro n
  induction n with
  | zero =>
    intro st mult acc h
    rw [Function.iterate_zero_apply] at h
    exact ⟨(st, acc), by simp [processBoard, h]⟩
  | succ n ih =>
    intro st mult acc h
    by_cases h0 : (findMatches st.gems).card = 0
    · exact ⟨(st, acc), by simp [processBoard, h0]⟩
    · rw [Function.iterate_succ_apply] at h
      obtain ⟨r, hr⟩ := ih (cascadeStep draws st) (mult + 1)
        (acc + (findMatches st.gems).card * 10 * mult) h
      refine ⟨r, ?_⟩
      simp only [processBoard]
      rw [if_neg h0]
      exact hr

/-- C9 amended: the resolver has no round cap and terminates exactly when a
round's match detection is empty; if the `n`-th cascade round finds no
matches, `processBoard` returns within `n + 1` recursion steps.  (The
universal termination the claim asserts is false: see the non-terminating
run from `tmplState`.) -/
theorem c9_terminates_of_empty_round (draws : Nat → Nat) (st : BoardState)
    (n : Nat) (h : (findMatches (((cascadeStep draws)^[n]) st).gems).card = 0) :
    ∃ r, processBoard draws (n + 1) st 1 0 = some r :=
  processBoard_some_of_empty_round draws n st 1 0 h

/-- Witness for the amended C9 statement at a concrete input: the match-free
board stabilises immediately. -/
theorem c9_terminates_of_empty_round_witness :
    ∃ r, processBoard draws5 (0 + 1) (⟨Bfree, 64, 0⟩ : BoardState) 1 0 = some r :=
  c9_terminates_of_empty_round draws5 (⟨Bfree, 64, 0⟩ : BoardState) 0 (by decide)
